import Mathlib

/-!
Paddle-Lite: the `Optimizer` pass pipeline, feed/fetch naming and `UniqueName`.

A shallow embedding of

* `lite/core/optimizer.h` : `Optimizer::Run`, `RunPasses`, `GenRuntimeProgram`,
  `InitTargetTypeTransformPass`, and the default pass list of `Run`;
* `lite/api/cxx_api.cc` : `Predictor::PrepareFeedFetch`, `Predictor::GenRuntimeProgram`,
  `Predictor::Build`, `Predictor::SaveOpKernelInfo`;
* `lite/backends/npu/builder.cc` : `UniqueName`.

Conventions of the embedding.

* A `CHECK` that fails, a `LOG(FATAL)`, and an access the C++ standard leaves
  undefined (member call through a null pointer, `operator[]` past the end,
  `front()` of an empty vector) end the computation: the functions return an
  `Outcome`, whose `fatal` case carries the state reached when the process stops.
* Code that the modelled functions call but that lives in other files (the graph,
  the pass registry, the passes) is the record `Env`; it acts on an abstract
  `world` (everything outside the `Optimizer` object: the pass objects, the
  kernel registry, the scope).
* `LOG(INFO)` lines are appended to the field `log`.
-/

namespace paddle.lite

/-! ## Placements -/

/-- Modelled from the spec: the device target of a placement. The enumeration is
declared in `lite/core/types.h`; the enumerators listed by name are the ones the
modelled sources mention, every further one is `other`. -/
inductive TargetType where
  | kHost
  | kCUDA
  | other (tag : Nat)
  deriving DecidableEq, Repr

/-- Modelled from the spec: the numeric precision of a placement
(`lite/core/types.h`). -/
inductive PrecisionType where
  | kFloat
  | kInt8
  | kInt32
  | kAny
  | other (tag : Nat)
  deriving DecidableEq, Repr

/-- Modelled from the spec: the memory layout of a placement
(`lite/core/types.h`). -/
inductive DataLayoutType where
  | kNCHW
  | kAny
  | other (tag : Nat)
  deriving DecidableEq, Repr

/-- Modelled from the spec: a placement is the triple (device target, numeric
precision, memory layout). -/
structure Place where
  target : TargetType
  precision : PrecisionType
  layout : DataLayoutType
  deriving DecidableEq, Repr

/-- Modelled from the spec: the kernel-pick tactic, the three factors a caller can
switch on (`core::KernelPickFactor`). -/
structure KernelPickFactor where
  considerTarget : Bool
  considerPrecision : Bool
  considerDataLayout : Bool
  deriving DecidableEq, Repr

/-- A `lite::Scope*` that is not null: the address of the scope. -/
structure Scope where
  addr : Nat
  deriving DecidableEq, Repr

/-! ## Operator descriptors and runtime programs -/

/-- Modelled from the spec: an operator descriptor (`cpp::OpDesc`, `OpInfo`): its
type, its named input and output argument lists, and its integer attributes. -/
structure OpDesc where
  type : String
  inputs : List (String × List String)
  outputs : List (String × List String)
  attrs : List (String × Int)
  deriving DecidableEq, Repr

/-- The descriptor of the kernel bound to an instruction. -/
structure KernelDesc where
  op_type : String
  target : TargetType
  precision : PrecisionType
  layout : DataLayoutType
  alias_ : String
  deriving DecidableEq, Repr

/-- One runtime instruction: an operator with its bound kernel. -/
structure Instruction where
  op_info : OpDesc
  kernel : KernelDesc
  deriving DecidableEq, Repr

/-- The runtime program `GenProgram` returns: the ordered instruction list and the
execution scope it is bound to (`none` is the null pointer). -/
structure RuntimeProgram where
  instructions : List Instruction
  exec_scope : Option Scope
  deriving DecidableEq, Repr

/-- Modelled from the spec: the parsed program (`cpp::ProgramDesc`): its blocks, each
an ordered list of operator descriptors. -/
structure ProgramDesc where
  blocks : List (List OpDesc)
  deriving DecidableEq, Repr

/-- `OpDesc::GetAttr<int>(name)`; `none` when the operator has no such attribute. -/
def OpDesc.GetAttr (op : OpDesc) (name : String) : Option Int :=
  op.attrs.lookup name

/-- `OpDesc::Input(param)`; `none` when the operator has no such input. -/
def OpDesc.Input (op : OpDesc) (param : String) : Option (List String) :=
  op.inputs.lookup param

/-- `OpDesc::Output(param)`; `none` when the operator has no such output. -/
def OpDesc.Output (op : OpDesc) (param : String) : Option (List String) :=
  op.outputs.lookup param

/-! ## Fatal stops -/

/-- Why the process stopped. -/
inductive Fatal where
  /-- `CHECK(cond) << msg` with `cond` false. -/
  | check (cond : String) (msg : String)
  /-- A member function called through a null pointer. -/
  | nullDeref (what : String)
  /-- An element access outside the vector (`operator[]`, `front()`). -/
  | outOfRange (what : String)
  /-- The process stopped inside code of another file. -/
  | inside (what : String)
  /-- `LOG(FATAL) << msg`. -/
  | logFatal (msg : String)
  deriving DecidableEq, Repr

/-- The result of running a piece of the program from a state of type `σ`. -/
inductive Outcome (σ α : Type) where
  | ok (val : α) (st : σ)
  | fatal (err : Fatal) (st : σ)

namespace Outcome

variable {σ α : Type}

/-- The state in which the computation ended, normally or not. -/
def state : Outcome σ α → σ
  | ok _ st => st
  | fatal _ st => st

/-- Whether the computation ran to its end. -/
def isOk : Outcome σ α → Bool
  | ok _ _ => true
  | fatal _ _ => false

end Outcome

/-! ## The collaborators of the `Optimizer` -/

/-- The code of other files that `Optimizer` calls. `G` is the content of an
`mir::SSAGraph`, `W` the state outside the `Optimizer` object, `P` a pointer to a
registered pass, `Prog` a `lite::Program`. -/
structure Env (G W P Prog : Type) where
  /-- `new mir::SSAGraph`. -/
  NewSSAGraph : G
  /-- `SSAGraph::Build(program, valid_places)`. -/
  Build : G → Prog → List Place → W → Except Fatal (G × W)
  /-- `SSAGraph::SetValidPlaces(valid_places)`. -/
  SetValidPlaces : G → List Place → G
  /-- `Optimizer::SpecifyKernelPickTactic`, declared in `optimizer.h` and defined
  in another file. -/
  SpecifyKernelPickTactic : KernelPickFactor → W → Except Fatal W
  /-- `mir::PassManager::Global().LookUp(name)`; `none` is the null pointer. The
  typed `LookUp<T>` is the same lookup followed by a downcast. -/
  LookUp : String → Option P
  /-- `TypeTargetTransformPass::SetValidPlaces`. -/
  PassSetValidPlaces : P → List Place → W → W
  /-- `PassMatchesTarget(pass, targets)` of `pass_utils.h`. -/
  PassMatchesTarget : P → Finset TargetType → Bool
  /-- `PassMatchesKernels(pass)` of `pass_utils.h`. -/
  PassMatchesKernels : P → Bool
  /-- `pass->Apply(graph_)` on a graph that exists. The pass receives the owning
  pointer by const reference: it can rewrite the graph, not release it. -/
  Apply : P → G → W → Except Fatal (G × W)
  /-- `pass->Apply(graph_)` when `graph_` is the null pointer. -/
  ApplyNull : P → W → Except Fatal W
  /-- `GenerateProgramPass::GenProgram()`. -/
  GenProgram : P → W → Except Fatal (RuntimeProgram × W)
  /-- `Program::exec_scope()`. -/
  exec_scope : Prog → Option Scope
  /-- The constructor `Program(desc, scope_, inner_places)`. -/
  NewProgram : ProgramDesc → Option Scope → List Place → W → Except Fatal (Prog × W)

/-- The private members of an `Optimizer` (`graph_`, `valid_places_`,
`exec_scope_`, `program_`; `none` is the null pointer), together with the state
outside the object and the `LOG(INFO)` lines written so far. -/
structure Optimizer (G W Prog : Type) where
  graph_ : Option G
  valid_places_ : List Place
  exec_scope_ : Option Scope
  program_ : Option Prog
  world : W
  log : List String

section OptimizerCode

variable {G W P Prog : Type}

/-- A freshly constructed `Optimizer`: every member default-initialised. -/
def Optimizer.fresh (w : W) (log : List String) : Optimizer G W Prog :=
  { graph_ := none, valid_places_ := [], exec_scope_ := none, program_ := none,
    world := w, log := log }

/-- `LOG(INFO) << line`. -/
def Optimizer.logInfo (o : Optimizer G W Prog) (line : String) : Optimizer G W Prog :=
  { o with log := o.log ++ [line] }

/-- The `std::set<TargetType>` that `RunPasses` fills from `valid_places_`. -/
def targetsOf (valid_places_ : List Place) : Finset TargetType :=
  valid_places_.foldl (fun targets place => insert place.target targets) ∅

/-- The call `pass->Apply(graph_)`. -/
def applyPass (env : Env G W P Prog) (pass : P) (o : Optimizer G W Prog) :
    Outcome (Optimizer G W Prog) Unit :=
  match o.graph_ with
  | some g =>
    match env.Apply pass g o.world with
    | .ok (g1, w1) => .ok () { o with graph_ := some g1, world := w1 }
    | .error e => .fatal e o
  | none =>
    match env.ApplyNull pass o.world with
    | .ok w1 => .ok () { o with world := w1 }
    | .error e => .fatal e o

/-- One turn of the loop of `RunPasses`, for the pass name `x`. -/
def RunPasses.body (env : Env G W P Prog) (x : String) (o : Optimizer G W Prog) :
    Outcome (Optimizer G W Prog) Unit :=
  let o := o.logInfo ("== Running pass: " ++ x)
  match env.LookUp x with
  | none => .ok () (o.logInfo ("   - Skip " ++ x ++ " because the pass isn\x27t found."))
  | some pass =>
    let targets := targetsOf o.valid_places_
    let matched := env.PassMatchesTarget pass targets && env.PassMatchesKernels pass
    if !matched then
      .ok () (o.logInfo ("   - Skip " ++ x ++ " because the target or kernel does not match."))
    else
      match applyPass env pass o with
      | .ok _ o1 => .ok () (o1.logInfo ("== Finished running: " ++ x))
      | .fatal e o1 => .fatal e o1

/-- `Optimizer::RunPasses`: the loop over the pass names. -/
def RunPasses (env : Env G W P Prog) :
    List String → Optimizer G W Prog → Outcome (Optimizer G W Prog) Unit
  | [], o => .ok () o
  | x :: rest, o =>
    match RunPasses.body env x o with
    | .ok _ o1 => RunPasses env rest o1
    | .fatal e o1 => .fatal e o1

/-- `Optimizer::InitTargetTypeTransformPass`. -/
def InitTargetTypeTransformPass (env : Env G W P Prog) (o : Optimizer G W Prog) :
    Outcome (Optimizer G W Prog) Unit :=
  match env.LookUp "type_target_cast_pass" with
  | none => .fatal (.check "pass" "") o
  | some pass =>
    if o.valid_places_.isEmpty then .fatal (.check "!valid_places_.empty()" "") o
    else .ok () { o with world := env.PassSetValidPlaces pass o.valid_places_ o.world }

/-- The pass list `passes_local` of `Optimizer::Run`. The flag says whether the
build defines `LITE_WITH_LIGHT_WEIGHT_FRAMEWORK` or `LITE_WITH_CUDA`. -/
def passes_local (light_weight_or_cuda : Bool) : List String :=
  [ "lite_quant_dequant_fuse_pass",
    "lite_conv_elementwise_fuse_pass",
    "lite_conv_bn_fuse_pass",
    "lite_conv_elementwise_fuse_pass",
    "lite_conv_activation_fuse_pass",
    "lite_fc_fuse_pass",
    "lite_shuffle_channel_fuse_pass",
    "lite_transpose_softmax_transpose_fuse_pass",
    "lite_interpolate_fuse_pass",
    "identity_scale_eliminate_pass" ]
  ++ (if light_weight_or_cuda then ["lite_elementwise_add_activation_fuse_pass"] else [])
  ++
  [ "static_kernel_pick_pass",
    "variable_place_inference_pass",
    "argument_type_display_pass",
    "type_target_cast_pass",
    "variable_place_inference_pass",
    "argument_type_display_pass",
    "io_copy_kernel_pick_pass",
    "argument_type_display_pass",
    "variable_place_inference_pass",
    "argument_type_display_pass",
    "type_precision_cast_pass",
    "variable_place_inference_pass",
    "argument_type_display_pass",
    "type_layout_cast_pass",
    "argument_type_display_pass",
    "variable_place_inference_pass",
    "argument_type_display_pass",
    "runtime_context_assign_pass",
    "argument_type_display_pass",
    "memory_optimize_pass" ]

/-- `Optimizer::Run`. The flag `light_weight_or_cuda` is the build configuration
read by the default pass list. -/
def Run (env : Env G W P Prog) (light_weight_or_cuda : Bool) (o : Optimizer G W Prog)
    (program : Prog) (valid_places : List Place) (kernel_pick_factor : KernelPickFactor)
    (passes : List String) : Outcome (Optimizer G W Prog) Unit :=
  let o := { o with program_ := some program }
  let o := { o with valid_places_ := valid_places }
  if valid_places.isEmpty then
    .fatal (.check "!valid_places.empty()" "At least one valid_place should be set") o
  else if o.graph_.isSome then
    .fatal (.check "!graph_" "duplicate optimize found") o
  else
    let o := { o with graph_ := some env.NewSSAGraph }
    match env.Build env.NewSSAGraph program valid_places o.world with
    | .error e => .fatal e o
    | .ok (g, w) =>
      let o := { o with graph_ := some g, world := w }
      let o := { o with graph_ := some (env.SetValidPlaces g valid_places) }
      match env.SpecifyKernelPickTactic kernel_pick_factor o.world with
      | .error e => .fatal e o
      | .ok w1 =>
        let o := { o with world := w1 }
        match InitTargetTypeTransformPass env o with
        | .fatal e o1 => .fatal e o1
        | .ok _ o1 =>
          match RunPasses env (if passes.isEmpty then passes_local light_weight_or_cuda
                               else passes) o1 with
          | .fatal e o2 => .fatal e o2
          | .ok _ o2 => .ok () { o2 with exec_scope_ := env.exec_scope program }

/-- `Optimizer::exec_scope()`. -/
def exec_scope (o : Optimizer G W Prog) : Option Scope := o.exec_scope_

/-- `Optimizer::GenRuntimeProgram`. -/
def GenRuntimeProgram (env : Env G W P Prog) (o : Optimizer G W Prog) :
    Outcome (Optimizer G W Prog) RuntimeProgram :=
  match RunPasses env ["generate_npu_program_pass", "generate_xpu_program_pass"] o with
  | .fatal e o1 => .fatal e o1
  | .ok _ o1 =>
    match env.LookUp "generate_program_pass" with
    | none => .fatal (.nullDeref "generate_program_pass") o1
    | some pass =>
      match applyPass env pass o1 with
      | .fatal e o2 => .fatal e o2
      | .ok _ o2 =>
        match env.GenProgram pass o2.world with
        | .error e => .fatal e o2
        | .ok (program, w) =>
          let o3 := { o2 with world := w }
          match o3.exec_scope_ with
          | none => .fatal (.check "exec_scope_" "") o3
          | some scope => .ok { program with exec_scope := some scope } o3

/-- `Optimizer::ssa_graph()` and the check of `mutable_ssa_graph()`: `CHECK(graph_)`,
then the graph. -/
def ssa_graph (o : Optimizer G W Prog) : Outcome (Optimizer G W Prog) G :=
  match o.graph_ with
  | none => .fatal (.check "graph_" "") o
  | some g => .ok g o

/-- The operations a client or a subclass can perform on an `Optimizer`.
`mutable_ssa_graph edit` is a call of `mutable_ssa_graph()` after which the caller
rewrites the graph through the pointer it got. -/
inductive Op (G Prog : Type) where
  | Run (program : Prog) (valid_places : List Place) (kernel_pick_factor : KernelPickFactor)
      (passes : List String)
  | GenRuntimeProgram
  | InitTargetTypeTransformPass
  | RunPasses (passes : List String)
  | SpecifyKernelPickTactic (factor : KernelPickFactor)
  | exec_scope
  | ssa_graph
  | mutable_ssa_graph (edit : G → G)

/-- Whether the operation is a call of `Run`. -/
def Op.isRun : Op G Prog → Bool
  | .Run _ _ _ _ => true
  | _ => false

/-- The effect of one operation on the `Optimizer`; the value it returns is dropped. -/
def stepOp (env : Env G W P Prog) (light_weight_or_cuda : Bool) :
    Op G Prog → Optimizer G W Prog → Outcome (Optimizer G W Prog) Unit
  | .Run program valid_places factor passes, o =>
    Run env light_weight_or_cuda o program valid_places factor passes
  | .GenRuntimeProgram, o =>
    match GenRuntimeProgram env o with
    | .ok _ o1 => .ok () o1
    | .fatal e o1 => .fatal e o1
  | .InitTargetTypeTransformPass, o => InitTargetTypeTransformPass env o
  | .RunPasses passes, o => RunPasses env passes o
  | .SpecifyKernelPickTactic factor, o =>
    match env.SpecifyKernelPickTactic factor o.world with
    | .ok w1 => .ok () { o with world := w1 }
    | .error e => .fatal e o
  | .exec_scope, o => .ok () o
  | .ssa_graph, o =>
    match ssa_graph o with
    | .ok _ o1 => .ok () o1
    | .fatal e o1 => .fatal e o1
  | .mutable_ssa_graph edit, o =>
    match ssa_graph o with
    | .ok g o1 => .ok () { o1 with graph_ := some (edit g) }
    | .fatal e o1 => .fatal e o1

/-- A sequence of operations on one `Optimizer`; it ends at the first fatal stop. -/
def runOps (env : Env G W P Prog) (light_weight_or_cuda : Bool) :
    List (Op G Prog) → Optimizer G W Prog → Outcome (Optimizer G W Prog) Unit
  | [], o => .ok () o
  | op :: rest, o =>
    match stepOp env light_weight_or_cuda op o with
    | .ok _ o1 => runOps env light_weight_or_cuda rest o1
    | .fatal e o1 => .fatal e o1

/-- The state with its log removed: what remains is the `Optimizer` object, its
graph included, and the state outside it. -/
def Optimizer.eraseLog (o : Optimizer G W Prog) : Optimizer G W Prog :=
  { o with log := [] }

/-- The outcome with the log of its final state removed. -/
def Outcome.eraseLog {α : Type} :
    Outcome (Optimizer G W Prog) α → Outcome (Optimizer G W Prog) α
  | .ok v st => .ok v st.eraseLog
  | .fatal e st => .fatal e st.eraseLog

/-- The members an operation other than `Run` leaves alone: whether the graph
exists, the valid places, the execution scope and the program. -/
def Optimizer.Frame (o o1 : Optimizer G W Prog) : Prop :=
  o1.graph_.isSome = o.graph_.isSome ∧ o1.valid_places_ = o.valid_places_ ∧
    o1.exec_scope_ = o.exec_scope_ ∧ o1.program_ = o.program_

/-- The `LOG(INFO)` lines of one completed turn of the loop of `RunPasses` for the
name `x`, under the valid places `vp`. -/
def passLines (env : Env G W P Prog) (vp : List Place) (x : String) : List String :=
  match env.LookUp x with
  | none => ["== Running pass: " ++ x, "   - Skip " ++ x ++ " because the pass isn\x27t found."]
  | some pass =>
    if env.PassMatchesTarget pass (vp.map (fun place => place.target)).toFinset
        && env.PassMatchesKernels pass then
      ["== Running pass: " ++ x, "== Finished running: " ++ x]
    else
      ["== Running pass: " ++ x,
       "   - Skip " ++ x ++ " because the target or kernel does not match."]

end OptimizerCode

/-- The three cast passes of the default pipeline. -/
def cast_passes : List String :=
  ["type_target_cast_pass", "type_precision_cast_pass", "type_layout_cast_pass"]

/-- A fusion or elimination pass: its name ends in `_fuse_pass` or in
`_eliminate_pass`. -/
def isFusionPass (x : String) : Bool :=
  "_fuse_pass".data.isSuffixOf x.data || "_eliminate_pass".data.isSuffixOf x.data

/-! ## The `Predictor`: feed and fetch names -/

/-- The members of a `Predictor` that the modelled functions use. -/
structure Predictor (G W Prog : Type) where
  optimizer_ : Optimizer G W Prog
  program_desc_ : ProgramDesc
  scope_ : Option Scope
  program_ : Option RuntimeProgram
  exec_scope_ : Option Scope
  input_names_ : List String
  output_names_ : List String
  program_generated_ : Bool

/-- `std::vector<std::string>::resize(n)`: the first `n` elements, filled up with empty
strings. -/
def resize (names : List String) (n : Nat) : List String :=
  names.take n ++ List.replicate (n - names.length) ""

/-- The first loop of `PrepareFeedFetch`: the `feed` operators and the `fetch`
operators of the list, each in the order of the list. -/
def collectFeedFetch (ops : List OpDesc) : List OpDesc × List OpDesc :=
  ops.foldl
    (fun acc op =>
      if op.type = "feed" then (acc.1 ++ [op], acc.2)
      else if op.type = "fetch" then (acc.1, acc.2 ++ [op])
      else acc)
    ([], [])

/-- One turn of a naming loop of `PrepareFeedFetch`:
`names[op->GetAttr<int>("col")] = arg(op).front()`, where `arg` is `Output("Out")` for
a feed and `Input("X")` for a fetch. The int index is converted to `size_t`, so a
negative one is past the end. -/
def assignName (what : String) (arg : OpDesc → Option (List String)) (op : OpDesc)
    (names : List String) : Outcome (List String) Unit :=
  match arg op with
  | none => .fatal (.check "it != end()" what) names
  | some [] => .fatal (.outOfRange (what ++ ".front()")) names
  | some (name :: _) =>
    match op.GetAttr "col" with
    | none => .fatal (.check "it != attrs().end()" "No attributes called col found") names
    | some col =>
      if 0 ≤ col ∧ col.toNat < names.length then .ok () (names.set col.toNat name)
      else .fatal (.outOfRange what) names

/-- A naming loop of `PrepareFeedFetch`, over the feeds or over the fetches. -/
def assignNames (what : String) (arg : OpDesc → Option (List String)) :
    List OpDesc → List String → Outcome (List String) Unit
  | [], names => .ok () names
  | op :: rest, names =>
    match assignName what arg op names with
    | .ok _ names1 => assignNames what arg rest names1
    | .fatal e names1 => .fatal e names1

section PredictorCode

variable {G W P Prog : Type}

namespace Predictor

/-- `Predictor::GenRuntimeProgram`. -/
def GenRuntimeProgram (env : Env G W P Prog) (p : Predictor G W Prog) :
    Outcome (Predictor G W Prog) Unit :=
  match paddle.lite.GenRuntimeProgram env p.optimizer_ with
  | .fatal e o1 => .fatal e { p with optimizer_ := o1 }
  | .ok program o1 =>
    let p := { p with optimizer_ := o1, program_ := some program }
    if p.exec_scope_ = program.exec_scope then .ok () { p with program_generated_ := true }
    else .fatal (.check "exec_scope_ == program_->exec_scope()" "") p

/-- The operator list that `PrepareFeedFetch` walks: block 0 of `program_desc_` in a
build with `LITE_WITH_NPU` or `LITE_WITH_XPU`; otherwise the instructions of the
runtime program, which is generated first when there is none. -/
def walkedOps (env : Env G W P Prog) (npu_or_xpu : Bool) (p : Predictor G W Prog) :
    Outcome (Predictor G W Prog) (List OpDesc) :=
  if npu_or_xpu then
    match p.program_desc_.blocks with
    | [] => .fatal (.outOfRange "GetBlock(0)") p
    | block :: _ => .ok block p
  else
    match (if p.program_.isNone then GenRuntimeProgram env p else .ok () p) with
    | .fatal e p1 => .fatal e p1
    | .ok _ p1 =>
      match p1.program_ with
      | none => .fatal (.nullDeref "program_") p1
      | some program => .ok (program.instructions.map (fun inst => inst.op_info)) p1

/-- The part of `PrepareFeedFetch` after the operator list is known: collect the feeds
and the fetches, resize the two name vectors, and run the two naming loops. -/
def nameFeedFetch (ops : List OpDesc) (p : Predictor G W Prog) :
    Outcome (Predictor G W Prog) Unit :=
  let feeds := (collectFeedFetch ops).1
  let fetchs := (collectFeedFetch ops).2
  let p := { p with input_names_ := resize p.input_names_ feeds.length }
  let p := { p with output_names_ := resize p.output_names_ fetchs.length }
  match assignNames "input_names_" (fun op => op.Output "Out") feeds p.input_names_ with
  | .fatal e names => .fatal e { p with input_names_ := names }
  | .ok _ names =>
    let p := { p with input_names_ := names }
    match assignNames "output_names_" (fun op => op.Input "X") fetchs p.output_names_ with
    | .fatal e names1 => .fatal e { p with output_names_ := names1 }
    | .ok _ names1 => .ok () { p with output_names_ := names1 }

/-- `Predictor::PrepareFeedFetch`. -/
def PrepareFeedFetch (env : Env G W P Prog) (npu_or_xpu : Bool) (p : Predictor G W Prog) :
    Outcome (Predictor G W Prog) Unit :=
  match walkedOps env npu_or_xpu p with
  | .fatal e p1 => .fatal e p1
  | .ok ops p1 => nameFeedFetch ops p1

/-- `Predictor::Build(desc, valid_places, passes)`. -/
def Build (env : Env G W P Prog) (light_weight_or_cuda npu_or_xpu : Bool)
    (p : Predictor G W Prog) (desc : ProgramDesc) (valid_places : List Place)
    (passes : List String) : Outcome (Predictor G W Prog) Unit :=
  let p := { p with program_desc_ := desc }
  let inner_places := valid_places ++ [⟨.kHost, .kAny, .kAny⟩] ++ [⟨.kHost, .kFloat, .kNCHW⟩]
  match env.NewProgram desc p.scope_ inner_places p.optimizer_.world with
  | .error e => .fatal e p
  | .ok (program, w) =>
    let p := { p with optimizer_ := { p.optimizer_ with world := w } }
    let factor : KernelPickFactor := ⟨true, true, true⟩
    match Run env light_weight_or_cuda p.optimizer_ program inner_places factor passes with
    | .fatal e o1 => .fatal e { p with optimizer_ := o1 }
    | .ok _ o1 =>
      let p := { p with optimizer_ := o1 }
      let p := { p with exec_scope_ := exec_scope p.optimizer_ }
      PrepareFeedFetch env npu_or_xpu p

end Predictor

/-- The operations of a client on a `Predictor` that the model covers. -/
inductive PredictorOp where
  | Build (desc : ProgramDesc) (valid_places : List Place) (passes : List String)
  | GenRuntimeProgram
  | PrepareFeedFetch

/-- The effect of one operation on the `Predictor`. -/
def stepPredictorOp (env : Env G W P Prog) (light_weight_or_cuda npu_or_xpu : Bool) :
    PredictorOp → Predictor G W Prog → Outcome (Predictor G W Prog) Unit
  | .Build desc valid_places passes, p =>
    Predictor.Build env light_weight_or_cuda npu_or_xpu p desc valid_places passes
  | .GenRuntimeProgram, p => Predictor.GenRuntimeProgram env p
  | .PrepareFeedFetch, p => Predictor.PrepareFeedFetch env npu_or_xpu p

/-- A sequence of operations on one `Predictor`; it ends at the first fatal stop. -/
def runPredictorOps (env : Env G W P Prog) (light_weight_or_cuda npu_or_xpu : Bool) :
    List PredictorOp → Predictor G W Prog → Outcome (Predictor G W Prog) Unit
  | [], p => .ok () p
  | op :: rest, p =>
    match stepPredictorOp env light_weight_or_cuda npu_or_xpu op p with
    | .ok _ p1 => runPredictorOps env light_weight_or_cuda npu_or_xpu rest p1
    | .fatal e p1 => .fatal e p1

end PredictorCode

/-! ## `Predictor::SaveOpKernelInfo` -/

/-- `std::set<std::string>::insert`, on the sorted list of the elements of the set. -/
def setInsert (x : String) : List String → List String
  | [] => [x]
  | y :: ys =>
    if x < y then x :: y :: ys
    else if x = y then y :: ys
    else y :: setInsert x ys

/-- What `SaveOpKernelInfo` takes from other files: the four file-name macros, the
three `Repr` functions, the two dictionaries of `OpKernelInfoCollector` (read with
`operator[]`, which yields the empty string for an absent key), and whether
`std::fopen(path, "w")` succeeds. -/
structure SaveEnv where
  TAILORD_OPS_LIST_NAME : String
  TAILORD_OPS_SOURCE_LIST_FILENAME : String
  TAILORD_KERNELS_LIST_NAME : String
  TAILORD_KERNELS_SOURCE_LIST_FILENAME : String
  TargetRepr : TargetType → String
  PrecisionRepr : PrecisionType → String
  DataLayoutRepr : DataLayoutType → String
  op2pathmap : String → String
  kernel2pathmap : String → String
  fopen_succeeds : String → Bool

/-- The files written so far, as pairs of path and content, and the `LOG(INFO)`
lines. -/
structure Files where
  files : List (String × String)
  log : List String
  deriving DecidableEq, Repr

/-- `std::fopen(path, "w")`: the null pointer (`none`) when the file cannot be opened,
else a handle on the file, which is created empty. -/
def fopen_w (senv : SaveEnv) (path : String) (fs : Files) : Option String × Files :=
  if senv.fopen_succeeds path then
    (some path, { fs with files := (path, "") :: fs.files.filter (fun f => f.1 ≠ path) })
  else (none, fs)

/-- `fputs(s, f)` and `fputc(c, f)`: the text is appended to the file; on the null
pointer the behaviour is undefined, which ends the computation. -/
def fputs (s : String) (what : String) (f : Option String) (fs : Files) : Outcome Files Unit :=
  match f with
  | none => .fatal (.nullDeref what) fs
  | some path =>
    .ok () { fs with files := fs.files.map (fun g => if g.1 = path then (g.1, g.2 ++ s) else g) }

/-- `std::fclose(f)`; undefined on the null pointer. -/
def fclose (what : String) (f : Option String) (fs : Files) : Outcome Files Unit :=
  match f with
  | none => .fatal (.nullDeref what) fs
  | some _ => .ok () fs

/-- Sequencing: the second computation runs only when the first has completed. -/
def Outcome.andThen {σ : Type} (r : Outcome σ Unit) (k : σ → Outcome σ Unit) : Outcome σ Unit :=
  match r with
  | .ok _ st => k st
  | .fatal e st => .fatal e st

/-- The string `SaveOpKernelInfo` builds for the kernel of an instruction. -/
def kernel_type_str (senv : SaveEnv) (kernel : KernelDesc) : String :=
  kernel.op_type ++ "," ++ senv.TargetRepr kernel.target ++ "," ++
    senv.PrecisionRepr kernel.precision ++ "," ++ senv.DataLayoutRepr kernel.layout ++ "," ++
    kernel.alias_

/-- The loop of `SaveOpKernelInfo` over `ops_info`. -/
def writeOpsInfo (senv : SaveEnv) (opf opf_source : Option String) :
    List String → Files → Outcome Files Unit
  | [], fs => .ok () fs
  | op_info :: rest, fs =>
    (fputs op_info "opf" opf fs).andThen fun fs =>
    (fputs "\n" "opf" opf fs).andThen fun fs =>
    (fputs (senv.op2pathmap op_info) "opf_source" opf_source fs).andThen fun fs =>
    (fputs "\n" "opf_source" opf_source fs).andThen fun fs =>
    writeOpsInfo senv opf opf_source rest fs

/-- The loop of `SaveOpKernelInfo` over `kernels_info`. -/
def writeKernelsInfo (senv : SaveEnv) (kpf kpf_source : Option String) :
    List String → Files → Outcome Files Unit
  | [], fs => .ok () fs
  | kernel_info :: rest, fs =>
    (fputs kernel_info "kpf" kpf fs).andThen fun fs =>
    (fputs "\n" "kpf" kpf fs).andThen fun fs =>
    (fputs (senv.kernel2pathmap kernel_info) "kpf_source" kpf_source fs).andThen fun fs =>
    (fputs "\n" "kpf_source" kpf_source fs).andThen fun fs =>
    (if senv.kernel2pathmap kernel_info = "conv_compute.cc" then
        fputs "conv_depthwise.cc\nconv_direct.cc\nconv_gemmlike.cc\nconv_winograd.cc\n"
          "kpf_source" kpf_source fs
      else .ok () fs).andThen fun fs =>
    writeKernelsInfo senv kpf kpf_source rest fs

/-- `Predictor::SaveOpKernelInfo(model_dir)`, for a `Predictor` whose runtime program
is `program_`. -/
def SaveOpKernelInfo (senv : SaveEnv) (program_ : Option RuntimeProgram) (model_dir : String)
    (fs : Files) : Outcome Files Unit :=
  match program_ with
  | none => .fatal (.nullDeref "program_") fs
  | some program =>
    let ops_info :=
      program.instructions.foldl (fun set node => setInsert node.op_info.type set) []
    let kernels_info :=
      program.instructions.foldl (fun set node => setInsert (kernel_type_str senv node.kernel) set)
        []
    let opf_path := model_dir ++ "/" ++ senv.TAILORD_OPS_LIST_NAME
    let opf_source_path := model_dir ++ "/" ++ senv.TAILORD_OPS_SOURCE_LIST_FILENAME
    let kpf_path := model_dir ++ "/" ++ senv.TAILORD_KERNELS_LIST_NAME
    let kpf_source_path := model_dir ++ "/" ++ senv.TAILORD_KERNELS_SOURCE_LIST_FILENAME
    let (opf, fs) := fopen_w senv opf_path fs
    let (opf_source, fs) := fopen_w senv opf_source_path fs
    let (kpf, fs) := fopen_w senv kpf_path fs
    let (kpf_source, fs) := fopen_w senv kpf_source_path fs
    if opf.isNone || opf_source.isNone || opf.isNone || kpf_source.isNone then
      .fatal (.logFatal ("failed to create info file into: " ++ model_dir)) fs
    else
      (writeOpsInfo senv opf opf_source ops_info fs).andThen fun fs =>
      (fclose "opf_source" opf_source fs).andThen fun fs =>
      (fclose "opf" opf fs).andThen fun fs =>
      let fs := { fs with log := fs.log ++
        ["operators information of tailored model is stored into: " ++ opf_path] }
      (writeKernelsInfo senv kpf kpf_source kernels_info fs).andThen fun fs =>
      (fclose "kpf_source" kpf_source fs).andThen fun fs =>
      (fclose "kpf" kpf fs).andThen fun fs =>
      .ok () { fs with log := fs.log ++
        ["kernels information of tailored model is stored into: " ++ kpf_path] }

/-! ## `UniqueName` of the NPU backend -/

/-- The decimal digits of a natural number, most significant first: `0` for zero, no
leading zero otherwise. -/
def decimalDigits (n : Nat) : List Char :=
  if n = 0 then ['0'] else (Nat.digits 10 n).reverse.map Nat.digitChar

/-- `std::to_string(int)`: a minus sign for a negative value, then the decimal digits
of the magnitude. -/
def to_string (n : Int) : String :=
  if n < 0 then String.mk ('-' :: decimalDigits n.natAbs) else String.mk (decimalDigits n.natAbs)

/-- The value an `int` holds after an arithmetic result `n`: two's complement
wrap-around to 32 bits. -/
def wrapInt32 (n : Int) : Int :=
  (n + 2147483648) % 4294967296 - 2147483648

/-- `UniqueName(prefix)` of `lite/backends/npu/builder.cc`, on the static `counter_map`
(a map from strings to `int`; `none` is an absent key). It returns the name and the
map after the call. The mutex makes the calls of concurrent threads a sequence. -/
def UniqueName (counter_map : String → Option Int) (pfx : String) :
    String × (String → Option Int) :=
  match counter_map pfx with
  | none =>
    (pfx ++ "_" ++ to_string 1, fun key => if key = pfx then some 1 else counter_map key)
  | some count =>
    let counter := wrapInt32 (count + 1)
    (pfx ++ "_" ++ to_string counter,
      fun key => if key = pfx then some counter else counter_map key)

/-- The names returned by a sequence of calls of `UniqueName`, starting from the map
`counter_map`. -/
def UniqueNames : List String → (String → Option Int) → List String
  | [], _ => []
  | pfx :: rest, counter_map =>
    (UniqueName counter_map pfx).1 :: UniqueNames rest (UniqueName counter_map pfx).2

/-- The map holds, for every prefix, the number of calls made with it so far. -/
def Tracks (counter_map : String → Option Int) (done : List String) : Prop :=
  ∀ p, counter_map p = if done.count p = 0 then none else some (done.count p : Int)

/-! ## A small concrete instance

Graphs are lists of operator names, there is no state outside the `Optimizer`,
passes are numbered, and programs are numbers. -/

namespace Demo

/-- Three passes are registered: the target cast pass, one pass that matches no
target, and one pass that appends a node to the graph. -/
def LookUp : String → Option Nat
  | "type_target_cast_pass" => some 0
  | "never_matches_pass" => some 1
  | "append_node_pass" => some 2
  | "generate_program_pass" => some 3
  | _ => none

/-- What the passes do to a graph. -/
def Apply (pass : Nat) (g : List String) (w : Unit) : Except Fatal (List String × Unit) :=
  if pass = 2 then .ok (g ++ ["node"], w) else .ok (g, w)

/-- The concrete collaborators. -/
def env : Env (List String) Unit Nat Nat where
  NewSSAGraph := []
  Build := fun g program _ w => .ok (g ++ ["op" ++ toString program], w)
  SetValidPlaces := fun g _ => g
  SpecifyKernelPickTactic := fun _ w => .ok w
  LookUp := LookUp
  PassSetValidPlaces := fun _ _ w => w
  PassMatchesTarget := fun pass _ => pass != 1
  PassMatchesKernels := fun _ => true
  Apply := Apply
  ApplyNull := fun _ _ => .error (.nullDeref "graph_")
  GenProgram := fun _ w => .ok (⟨[], none⟩, w)
  exec_scope := fun program => some ⟨program⟩
  NewProgram := fun desc _ _ w => .ok (desc.blocks.length, w)

/-- The host placement. -/
def host : Place := ⟨.kHost, .kFloat, .kNCHW⟩

/-- All three factors switched on. -/
def factor : KernelPickFactor := ⟨true, true, true⟩

/-- A freshly constructed `Optimizer`. -/
def fresh : Optimizer (List String) Unit Nat := Optimizer.fresh () []

/-- The `Optimizer` after `Run(program 7, [host], factor, [append_node_pass])`. -/
def afterRun : Optimizer (List String) Unit Nat :=
  { graph_ := some ["op7", "node"], valid_places_ := [host], exec_scope_ := some ⟨7⟩,
    program_ := some 7, world := (),
    log := ["== Running pass: append_node_pass", "== Finished running: append_node_pass"] }

/-- The `Optimizer` after the graph edit and the program generation that follow
the `Run` of `afterRun`. -/
def afterOps : Optimizer (List String) Unit Nat :=
  { graph_ := some ["op7", "node", "edit"], valid_places_ := [host], exec_scope_ := some ⟨7⟩,
    program_ := some 7, world := (),
    log := ["== Running pass: append_node_pass", "== Finished running: append_node_pass",
      "== Running pass: generate_npu_program_pass",
      "   - Skip generate_npu_program_pass because the pass isn\x27t found.",
      "== Running pass: generate_xpu_program_pass",
      "   - Skip generate_xpu_program_pass because the pass isn\x27t found."] }

/-- A fresh `Optimizer` after a `RunPasses` with the unregistered name
`no_such_pass`. -/
def beforeRun : Optimizer (List String) Unit Nat :=
  { graph_ := none, valid_places_ := [], exec_scope_ := none, program_ := none, world := (),
    log := ["== Running pass: no_such_pass",
      "   - Skip no_such_pass because the pass isn\x27t found."] }

/-- A feed operator with the slot `col` and the output variable `out`. -/
def feedOp (col : Int) (out : String) : OpDesc :=
  { type := "feed", inputs := [("X", ["feed"])], outputs := [("Out", [out])],
    attrs := [("col", col)] }

/-- A fetch operator with the slot `col` and the input variable `x`. -/
def fetchOp (col : Int) (x : String) : OpDesc :=
  { type := "fetch", inputs := [("X", [x])], outputs := [("Out", ["fetch"])],
    attrs := [("col", col)] }

/-- An operator that is neither a feed nor a fetch. -/
def convOp : OpDesc :=
  { type := "conv2d", inputs := [("Input", ["a"])], outputs := [("Output", ["y"])],
    attrs := [] }

/-- The operators of the feed-ordering scenario: the feed of slot 1 comes before the
feed of slot 0. -/
def feedOps : List OpDesc := [feedOp 1 "b", feedOp 0 "a", convOp, fetchOp 0 "y"]

/-- A `Predictor` of a build with `LITE_WITH_NPU` whose program description has the
operators `feedOps` in block 0. -/
def predictor : Predictor (List String) Unit Nat :=
  { optimizer_ := afterRun, program_desc_ := ⟨[feedOps]⟩, scope_ := some ⟨1⟩,
    program_ := none, exec_scope_ := some ⟨7⟩, input_names_ := [], output_names_ := [],
    program_generated_ := false }

/-- The runtime program the concrete `GenProgram` yields, bound to the scope at `addr`. -/
def runtimeProgram (addr : Nat) : RuntimeProgram := ⟨[], some ⟨addr⟩⟩

/-- The `Optimizer` after a `GenRuntimeProgram` that follows the `Run` of `afterRun`. -/
def afterGen : Optimizer (List String) Unit Nat :=
  { graph_ := some ["op7", "node"], valid_places_ := [host], exec_scope_ := some ⟨7⟩,
    program_ := some 7, world := (),
    log := ["== Running pass: append_node_pass", "== Finished running: append_node_pass",
      "== Running pass: generate_npu_program_pass",
      "   - Skip generate_npu_program_pass because the pass isn\x27t found.",
      "== Running pass: generate_xpu_program_pass",
      "   - Skip generate_xpu_program_pass because the pass isn\x27t found."] }

/-- A freshly constructed `Predictor`. -/
def freshPredictor : Predictor (List String) Unit Nat :=
  { optimizer_ := fresh, program_desc_ := ⟨[]⟩, scope_ := some ⟨1⟩,
    program_ := none, exec_scope_ := none, input_names_ := [], output_names_ := [],
    program_generated_ := false }

/-- The two host places that `Predictor::Build` appends. -/
def hostPlaces : List Place := [⟨.kHost, .kAny, .kAny⟩, ⟨.kHost, .kFloat, .kNCHW⟩]

/-- The `Optimizer` of `freshPredictor` after the `Run` inside
`Build(desc with block feedOps, no valid place, [append_node_pass])`. -/
def builtOptimizer : Optimizer (List String) Unit Nat :=
  { graph_ := some ["op1", "node"], valid_places_ := hostPlaces, exec_scope_ := some ⟨1⟩,
    program_ := some 1, world := (),
    log := ["== Running pass: append_node_pass", "== Finished running: append_node_pass"] }

/-- The `Optimizer` of `builtOptimizer` after one `GenRuntimeProgram`. -/
def builtOptimizerGen : Optimizer (List String) Unit Nat :=
  { builtOptimizer with
    log := ["== Running pass: append_node_pass", "== Finished running: append_node_pass",
      "== Running pass: generate_npu_program_pass",
      "   - Skip generate_npu_program_pass because the pass isn\x27t found.",
      "== Running pass: generate_xpu_program_pass",
      "   - Skip generate_xpu_program_pass because the pass isn\x27t found."] }

/-- The `Optimizer` of `builtOptimizer` after two calls of `GenRuntimeProgram`. -/
def builtOptimizerGen2 : Optimizer (List String) Unit Nat :=
  { builtOptimizer with
    log := ["== Running pass: append_node_pass", "== Finished running: append_node_pass",
      "== Running pass: generate_npu_program_pass",
      "   - Skip generate_npu_program_pass because the pass isn\x27t found.",
      "== Running pass: generate_xpu_program_pass",
      "   - Skip generate_xpu_program_pass because the pass isn\x27t found.",
      "== Running pass: generate_npu_program_pass",
      "   - Skip generate_npu_program_pass because the pass isn\x27t found.",
      "== Running pass: generate_xpu_program_pass",
      "   - Skip generate_xpu_program_pass because the pass isn\x27t found."] }

/-- The `Predictor` that `Build(desc with block feedOps, no valid place,
[append_node_pass])` leaves, in a build without `LITE_WITH_NPU` and `LITE_WITH_XPU`:
the runtime program was generated inside `PrepareFeedFetch`. -/
def builtPredictor : Predictor (List String) Unit Nat :=
  { optimizer_ := builtOptimizerGen, program_desc_ := ⟨[feedOps]⟩, scope_ := some ⟨1⟩,
    program_ := some (runtimeProgram 1), exec_scope_ := some ⟨1⟩, input_names_ := [],
    output_names_ := [], program_generated_ := true }

/-- The collaborators of `env` without `type_target_cast_pass` in the registry. -/
def envNoCast : Env (List String) Unit Nat Nat :=
  { env with LookUp := fun x => if x = "type_target_cast_pass" then none else LookUp x }

/-- Collaborators whose outside state is the list of the valid-places lists handed to
the cast pass, the latest first. -/
def recEnv : Env (List String) (List (List Place)) Nat Nat where
  NewSSAGraph := []
  Build := fun g program _ w => .ok (g ++ ["op" ++ toString program], w)
  SetValidPlaces := fun g _ => g
  SpecifyKernelPickTactic := fun _ w => .ok w
  LookUp := LookUp
  PassSetValidPlaces := fun _ vp w => vp :: w
  PassMatchesTarget := fun pass _ => pass != 1
  PassMatchesKernels := fun _ => true
  Apply := fun pass g w => if pass = 2 then .ok (g ++ ["node"], w) else .ok (g, w)
  ApplyNull := fun _ _ => .error (.nullDeref "graph_")
  GenProgram := fun _ w => .ok (⟨[], none⟩, w)
  exec_scope := fun program => some ⟨program⟩
  NewProgram := fun desc _ _ w => .ok (desc.blocks.length, w)

/-- File names and dictionaries for `SaveOpKernelInfo`; `fopen` fails exactly on the
paths listed in `unwritable`. -/
def saveEnv (unwritable : List String) : SaveEnv where
  TAILORD_OPS_LIST_NAME := "ops_list"
  TAILORD_OPS_SOURCE_LIST_FILENAME := "ops_source_list"
  TAILORD_KERNELS_LIST_NAME := "kernels_list"
  TAILORD_KERNELS_SOURCE_LIST_FILENAME := "kernels_source_list"
  TargetRepr := fun _ => "kHost"
  PrecisionRepr := fun _ => "kFloat"
  DataLayoutRepr := fun _ => "kNCHW"
  op2pathmap := fun _ => "conv_op.cc"
  kernel2pathmap := fun _ => "conv_compute.cc"
  fopen_succeeds := fun path => !(unwritable.contains path)

/-- A runtime program with one instruction, a convolution with a host kernel. -/
def convProgram : RuntimeProgram :=
  { instructions := [⟨convOp, ⟨"conv2d", .kHost, .kFloat, .kNCHW, "def"⟩⟩],
    exec_scope := some ⟨1⟩ }

/-- No file written, nothing logged. -/
def noFiles : Files := ⟨[], []⟩

/-- The collaborators of `env` with passes that stop on a graph and return on the null
graph. -/
def failEnv : Env (List String) Unit Nat Nat :=
  { env with
    Apply := fun _ _ _ => .error (.inside "Apply")
    ApplyNull := fun _ w => .ok w }

end Demo

/-! ## Lemmas on the pass loop -/

section OptimizerLemmas

variable {G W P Prog : Type}

theorem targetsOf_foldl (vp : List Place) (acc : Finset TargetType) :
    vp.foldl (fun targets place => insert place.target targets) acc
      = acc ∪ (vp.map (fun place => place.target)).toFinset := by
  induction vp generalizing acc with
  | nil => simp
  | cons p rest ih =>
    simp only [List.foldl_cons, List.map_cons, List.toFinset_cons, ih]
    ext t
    simp only [Finset.mem_union, Finset.mem_insert, List.mem_toFinset]
    tauto

/-- The set `RunPasses` builds is the set of the targets of the valid places. -/
theorem targetsOf_eq (vp : List Place) :
    targetsOf vp = (vp.map (fun place => place.target)).toFinset := by
  unfold targetsOf
  rw [targetsOf_foldl]
  simp

theorem RunPasses_nil (env : Env G W P Prog) (o : Optimizer G W Prog) :
    RunPasses env [] o = .ok () o := rfl

theorem RunPasses_cons (env : Env G W P Prog) (x : String) (rest : List String)
    (o : Optimizer G W Prog) :
    RunPasses env (x :: rest) o =
      match RunPasses.body env x o with
      | .ok _ o1 => RunPasses env rest o1
      | .fatal e o1 => .fatal e o1 := rfl

theorem RunPasses_single (env : Env G W P Prog) (x : String) (o : Optimizer G W Prog) :
    RunPasses env [x] o = RunPasses.body env x o := by
  rw [RunPasses_cons]
  cases RunPasses.body env x o <;> rfl

theorem RunPasses_append (env : Env G W P Prog) (l1 l2 : List String)
    (o : Optimizer G W Prog) :
    RunPasses env (l1 ++ l2) o =
      match RunPasses env l1 o with
      | .ok _ o1 => RunPasses env l2 o1
      | .fatal e o1 => .fatal e o1 := by
  induction l1 generalizing o with
  | nil => rfl
  | cons x rest ih =>
    simp only [List.cons_append, RunPasses_cons]
    cases RunPasses.body env x o with
    | ok v o1 => exact ih o1
    | fatal e o1 => rfl

theorem Optimizer.Frame.refl (o : Optimizer G W Prog) : o.Frame o := ⟨rfl, rfl, rfl, rfl⟩

theorem Optimizer.Frame.trans {o o1 o2 : Optimizer G W Prog} (h1 : o.Frame o1)
    (h2 : o1.Frame o2) : o.Frame o2 :=
  ⟨h2.1.trans h1.1, h2.2.1.trans h1.2.1, h2.2.2.1.trans h1.2.2.1, h2.2.2.2.trans h1.2.2.2⟩

theorem logInfo_frame (o : Optimizer G W Prog) (line : String) : o.Frame (o.logInfo line) :=
  ⟨rfl, rfl, rfl, rfl⟩

theorem applyPass_frame (env : Env G W P Prog) (pass : P) (o o1 : Optimizer G W Prog)
    (h : applyPass env pass o = .ok () o1) : o.Frame o1 := by
  unfold applyPass at h
  cases hg : o.graph_ with
  | none =>
    simp only [hg] at h
    cases hA : env.ApplyNull pass o.world with
    | error e => simp [hA] at h
    | ok w1 =>
      simp only [hA, Outcome.ok.injEq, true_and] at h
      subst h
      exact ⟨by simp [hg], rfl, rfl, rfl⟩
  | some g =>
    simp only [hg] at h
    cases hA : env.Apply pass g o.world with
    | error e => simp [hA] at h
    | ok r =>
      obtain ⟨g1, w1⟩ := r
      simp only [hA, Outcome.ok.injEq, true_and] at h
      subst h
      exact ⟨by simp [hg], rfl, rfl, rfl⟩

theorem body_frame (env : Env G W P Prog) (x : String) (o o1 : Optimizer G W Prog)
    (h : RunPasses.body env x o = .ok () o1) : o.Frame o1 := by
  unfold RunPasses.body at h
  cases hL : env.LookUp x with
  | none =>
    simp only [hL, Outcome.ok.injEq, true_and] at h
    subst h
    exact ⟨rfl, rfl, rfl, rfl⟩
  | some pass =>
    simp only [hL] at h
    split at h
    · simp only [Outcome.ok.injEq, true_and] at h
      subst h
      exact ⟨rfl, rfl, rfl, rfl⟩
    · cases hA : applyPass env pass (o.logInfo ("== Running pass: " ++ x)) with
      | fatal e o2 => simp [hA] at h
      | ok v o2 =>
        simp only [hA, Outcome.ok.injEq, true_and] at h
        subst h
        exact ((logInfo_frame o _).trans (applyPass_frame env pass _ o2 hA)).trans
          (logInfo_frame o2 _)

theorem RunPasses_frame (env : Env G W P Prog) (l : List String) (o o1 : Optimizer G W Prog)
    (h : RunPasses env l o = .ok () o1) : o.Frame o1 := by
  induction l generalizing o with
  | nil =>
    simp only [RunPasses_nil, Outcome.ok.injEq, true_and] at h
    subst h
    exact Optimizer.Frame.refl o
  | cons x rest ih =>
    rw [RunPasses_cons] at h
    cases hb : RunPasses.body env x o with
    | fatal e o2 => simp [hb] at h
    | ok v o2 =>
      simp only [hb] at h
      exact (body_frame env x o o2 hb).trans (ih o2 h)

theorem InitTargetTypeTransformPass_frame (env : Env G W P Prog) (o o1 : Optimizer G W Prog)
    (h : InitTargetTypeTransformPass env o = .ok () o1) :
    o1.graph_ = o.graph_ ∧ o.Frame o1 ∧ o1.log = o.log := by
  unfold InitTargetTypeTransformPass at h
  cases hL : env.LookUp "type_target_cast_pass" with
  | none => simp [hL] at h
  | some pass =>
    simp only [hL] at h
    split at h
    · simp at h
    · simp only [Outcome.ok.injEq, true_and] at h
      subst h
      exact ⟨rfl, ⟨rfl, rfl, rfl, rfl⟩, rfl⟩

/-- What holds when `Run` has completed. -/
theorem Run_ok (env : Env G W P Prog) (lw : Bool) (o o1 : Optimizer G W Prog) (program : Prog)
    (vp : List Place) (factor : KernelPickFactor) (passes : List String)
    (h : Run env lw o program vp factor passes = .ok () o1) :
    o.graph_ = none ∧ vp ≠ [] ∧ o1.graph_.isSome = true ∧ o1.valid_places_ = vp ∧
      o1.exec_scope_ = env.exec_scope program ∧ o1.program_ = some program := by
  unfold Run at h
  simp only at h
  split at h
  · simp at h
  rename_i hvp
  split at h
  · simp at h
  rename_i hg
  cases hB : env.Build env.NewSSAGraph program vp o.world with
  | error e => simp [hB] at h
  | ok r =>
    obtain ⟨g, w⟩ := r
    simp only [hB] at h
    cases hS : env.SpecifyKernelPickTactic factor w with
    | error e => simp [hS] at h
    | ok w1 =>
      simp only [hS] at h
      split at h
      · simp at h
      rename_i v o2 hI
      split at h
      · simp at h
      rename_i v2 o3 hR
      simp only [Outcome.ok.injEq, true_and] at h
      subst h
      have fI := (InitTargetTypeTransformPass_frame env _ o2 hI).2.1
      have fR := RunPasses_frame env _ o2 o3 hR
      have f := fI.trans fR
      refine ⟨?_, ?_, ?_, ?_, rfl, ?_⟩
      · simpa using hg
      · simpa using hvp
      · simpa using f.1
      · simpa using f.2.1
      · simpa using f.2.2.2

/-- `Run` on an `Optimizer` whose graph exists stops at one of its two checks. -/
theorem Run_of_graph (env : Env G W P Prog) (lw : Bool) (o : Optimizer G W Prog)
    (hg : o.graph_.isSome = true) (program : Prog)
    (vp : List Place) (factor : KernelPickFactor) (passes : List String) :
    Run env lw o program vp factor passes =
      .fatal (if vp = [] then .check "!valid_places.empty()" "At least one valid_place should be set"
              else .check "!graph_" "duplicate optimize found")
        { o with program_ := some program, valid_places_ := vp } := by
  unfold Run
  cases vp with
  | nil => simp
  | cons p rest => simp [hg]

theorem GenRuntimeProgram_frame (env : Env G W P Prog) (o o1 : Optimizer G W Prog)
    (program : RuntimeProgram) (h : GenRuntimeProgram env o = .ok program o1) :
    o.Frame o1 := by
  unfold GenRuntimeProgram at h
  split at h
  · simp at h
  rename_i v o2 hR
  split at h
  · simp at h
  rename_i pass hL
  split at h
  · simp at h
  rename_i v2 o3 hA
  split at h
  · simp at h
  rename_i prog w hG
  simp only at h
  split at h
  · simp at h
  rename_i scope hs
  simp only [Outcome.ok.injEq] at h
  obtain ⟨-, rfl⟩ := h
  exact ((RunPasses_frame env _ o o2 hR).trans (applyPass_frame env pass o2 o3 hA)).trans
    ⟨rfl, rfl, rfl, rfl⟩

/-- `GenRuntimeProgram` on an `Optimizer` without execution scope returns no program. -/
theorem GenRuntimeProgram_of_no_scope (env : Env G W P Prog) (o : Optimizer G W Prog)
    (hs : o.exec_scope_ = none) : ∃ e st, GenRuntimeProgram env o = .fatal e st := by
  unfold GenRuntimeProgram
  split
  · exact ⟨_, _, rfl⟩
  rename_i v o2 hR
  split
  · exact ⟨_, _, rfl⟩
  rename_i pass hL
  split
  · exact ⟨_, _, rfl⟩
  rename_i v2 o3 hA
  split
  · exact ⟨_, _, rfl⟩
  rename_i prog w hG
  have f := (RunPasses_frame env _ o o2 hR).trans (applyPass_frame env pass o2 o3 hA)
  have h3 : o3.exec_scope_ = none := f.2.2.1.trans hs
  simp only [h3]
  exact ⟨_, _, rfl⟩

/-- An operation that completes and is not `Run` keeps the frame; `Run` completes
only on an `Optimizer` without graph. -/
theorem stepOp_frame (env : Env G W P Prog) (lw : Bool) (op : Op G Prog)
    (o o1 : Optimizer G W Prog) (h : stepOp env lw op o = .ok () o1) :
    (op.isRun = false → o.Frame o1) ∧ (o.graph_.isSome = true → o1.graph_.isSome = true) := by
  cases op with
  | Run program vp factor passes =>
    simp only [stepOp] at h
    have := Run_ok env lw o o1 program vp factor passes h
    refine ⟨by simp [Op.isRun], fun _ => this.2.2.1⟩
  | GenRuntimeProgram =>
    simp only [stepOp] at h
    split at h
    · rename_i v o2 hG
      simp only [Outcome.ok.injEq, true_and] at h
      subst h
      have f := GenRuntimeProgram_frame env o o2 v hG
      exact ⟨fun _ => f, fun hg => f.1.trans hg⟩
    · simp at h
  | InitTargetTypeTransformPass =>
    simp only [stepOp] at h
    have f := (InitTargetTypeTransformPass_frame env o o1 h).2.1
    exact ⟨fun _ => f, fun hg => f.1.trans hg⟩
  | RunPasses passes =>
    simp only [stepOp] at h
    have f := RunPasses_frame env passes o o1 h
    exact ⟨fun _ => f, fun hg => f.1.trans hg⟩
  | SpecifyKernelPickTactic factor =>
    simp only [stepOp] at h
    split at h
    · simp only [Outcome.ok.injEq, true_and] at h
      subst h
      exact ⟨fun _ => ⟨rfl, rfl, rfl, rfl⟩, id⟩
    · simp at h
  | exec_scope =>
    simp only [stepOp, Outcome.ok.injEq, true_and] at h
    subst h
    exact ⟨fun _ => Optimizer.Frame.refl _, id⟩
  | ssa_graph =>
    simp only [stepOp, ssa_graph] at h
    cases hg : o.graph_ with
    | none => simp [hg] at h
    | some g =>
      simp only [hg, Outcome.ok.injEq, true_and] at h
      subst h
      exact ⟨fun _ => Optimizer.Frame.refl _, fun _ => by simp [hg]⟩
  | mutable_ssa_graph edit =>
    simp only [stepOp, ssa_graph] at h
    cases hg : o.graph_ with
    | none => simp [hg] at h
    | some g =>
      simp only [hg, Outcome.ok.injEq, true_and] at h
      subst h
      exact ⟨fun _ => ⟨by simp [hg], rfl, rfl, rfl⟩, fun _ => rfl⟩

theorem runOps_graph (env : Env G W P Prog) (lw : Bool) (ops : List (Op G Prog))
    (o o1 : Optimizer G W Prog) (h : runOps env lw ops o = .ok () o1)
    (hg : o.graph_.isSome = true) : o1.graph_.isSome = true := by
  induction ops generalizing o with
  | nil =>
    simp only [runOps, Outcome.ok.injEq, true_and] at h
    subst h
    exact hg
  | cons op rest ih =>
    simp only [runOps] at h
    split at h
    · rename_i v o2 hs
      exact ih o2 h ((stepOp_frame env lw op o o2 hs).2 hg)
    · simp at h

theorem runOps_frame (env : Env G W P Prog) (lw : Bool) (ops : List (Op G Prog))
    (hops : ∀ op ∈ ops, op.isRun = false)
    (o o1 : Optimizer G W Prog) (h : runOps env lw ops o = .ok () o1) : o.Frame o1 := by
  induction ops generalizing o with
  | nil =>
    simp only [runOps, Outcome.ok.injEq, true_and] at h
    subst h
    exact Optimizer.Frame.refl o
  | cons op rest ih =>
    simp only [runOps] at h
    split at h
    · rename_i v o2 hs
      exact ((stepOp_frame env lw op o o2 hs).1 (hops op (List.mem_cons_self _ _))).trans
        (ih (fun op2 h2 => hops op2 (List.mem_cons_of_mem _ h2)) o2 h)
    · simp at h

theorem eraseLog_logInfo (o : Optimizer G W Prog) (line : String) :
    (o.logInfo line).eraseLog = o.eraseLog := rfl

theorem eraseLog_state_graph {α : Type} (r1 r2 : Outcome (Optimizer G W Prog) α)
    (h : r1.eraseLog = r2.eraseLog) : r1.state.graph_ = r2.state.graph_ := by
  cases r1 <;> cases r2 <;> simp only [Outcome.eraseLog, Outcome.ok.injEq,
    Outcome.fatal.injEq, reduceCtorEq] at h
  · have h2 := congrArg Optimizer.graph_ h.2
    exact h2
  · have h2 := congrArg Optimizer.graph_ h.2
    exact h2

theorem applyPass_eraseLog (env : Env G W P Prog) (pass : P) (o o2 : Optimizer G W Prog)
    (h : o.eraseLog = o2.eraseLog) :
    (applyPass env pass o).eraseLog = (applyPass env pass o2).eraseLog := by
  obtain ⟨g, vp, sc, pr, w, lg⟩ := o
  obtain ⟨g2, vp2, sc2, pr2, w2, lg2⟩ := o2
  simp only [Optimizer.eraseLog, Optimizer.mk.injEq, and_true] at h
  obtain ⟨rfl, rfl, rfl, rfl, rfl⟩ := h
  unfold applyPass
  cases g with
  | none =>
    simp only
    cases env.ApplyNull pass w <;> rfl
  | some g0 =>
    simp only
    cases env.Apply pass g0 w <;> rfl

theorem applyPass_log (env : Env G W P Prog) (pass : P) (o : Optimizer G W Prog) :
    (applyPass env pass o).state.log = o.log := by
  unfold applyPass
  cases o.graph_ with
  | none =>
    simp only
    cases env.ApplyNull pass o.world <;> rfl
  | some g0 =>
    simp only
    cases env.Apply pass g0 o.world <;> rfl

theorem body_eraseLog (env : Env G W P Prog) (x : String) (o o2 : Optimizer G W Prog)
    (h : o.eraseLog = o2.eraseLog) :
    (RunPasses.body env x o).eraseLog = (RunPasses.body env x o2).eraseLog := by
  obtain ⟨g, vp, sc, pr, w, lg⟩ := o
  obtain ⟨g2, vp2, sc2, pr2, w2, lg2⟩ := o2
  simp only [Optimizer.eraseLog, Optimizer.mk.injEq, and_true] at h
  obtain ⟨rfl, rfl, rfl, rfl, rfl⟩ := h
  unfold RunPasses.body
  cases env.LookUp x with
  | none => rfl
  | some pass =>
    simp only [Optimizer.logInfo]
    split
    · rfl
    · have hA := applyPass_eraseLog env pass
        { graph_ := g, valid_places_ := vp, exec_scope_ := sc, program_ := pr, world := w,
          log := lg ++ ["== Running pass: " ++ x] }
        { graph_ := g, valid_places_ := vp, exec_scope_ := sc, program_ := pr, world := w,
          log := lg2 ++ ["== Running pass: " ++ x] } rfl
      revert hA
      generalize applyPass env pass
        { graph_ := g, valid_places_ := vp, exec_scope_ := sc, program_ := pr, world := w,
          log := lg ++ ["== Running pass: " ++ x] } = r1
      generalize applyPass env pass
        { graph_ := g, valid_places_ := vp, exec_scope_ := sc, program_ := pr, world := w,
          log := lg2 ++ ["== Running pass: " ++ x] } = r2
      cases r1 <;> cases r2 <;>
        simp only [Outcome.eraseLog, Optimizer.eraseLog, Outcome.ok.injEq, Outcome.fatal.injEq,
          reduceCtorEq, Optimizer.mk.injEq, and_true, true_and, false_imp_iff, imp_self]

theorem RunPasses_eraseLog (env : Env G W P Prog) (l : List String)
    (o o2 : Optimizer G W Prog) (h : o.eraseLog = o2.eraseLog) :
    (RunPasses env l o).eraseLog = (RunPasses env l o2).eraseLog := by
  induction l generalizing o o2 with
  | nil => simpa [RunPasses, Outcome.eraseLog] using h
  | cons x rest ih =>
    have hb := body_eraseLog env x o o2 h
    simp only [RunPasses_cons]
    revert hb
    cases RunPasses.body env x o <;> cases RunPasses.body env x o2 <;>
      simp only [Outcome.eraseLog, Outcome.ok.injEq, Outcome.fatal.injEq, reduceCtorEq,
        false_imp_iff, and_imp]
    · intro _ hst
      exact ih _ _ hst
    · intro he hst
      exact ⟨he, hst⟩

/-- A name that does not resolve only writes to the log. -/
theorem body_of_LookUp_none (env : Env G W P Prog) (x : String) (hx : env.LookUp x = none)
    (o : Optimizer G W Prog) :
    RunPasses.body env x o = .ok () ((o.logInfo ("== Running pass: " ++ x)).logInfo
      ("   - Skip " ++ x ++ " because the pass isn\x27t found.")) := by
  unfold RunPasses.body
  simp only [hx]

theorem RunPasses_skip (env : Env G W P Prog) (x : String) (hx : env.LookUp x = none)
    (l1 l2 : List String) (o : Optimizer G W Prog) :
    (RunPasses env (l1 ++ x :: l2) o).eraseLog = (RunPasses env (l1 ++ l2) o).eraseLog := by
  rw [RunPasses_append, RunPasses_append]
  cases RunPasses env l1 o with
  | fatal e o1 => rfl
  | ok v o1 =>
    simp only [RunPasses_cons, body_of_LookUp_none env x hx]
    exact RunPasses_eraseLog env l2 _ _ rfl

theorem body_log (env : Env G W P Prog) (x : String) (o o1 : Optimizer G W Prog)
    (h : RunPasses.body env x o = .ok () o1) :
    o1.log = o.log ++ passLines env o.valid_places_ x := by
  unfold RunPasses.body at h
  unfold passLines
  rw [← targetsOf_eq]
  cases hL : env.LookUp x with
  | none =>
    simp only [hL, Outcome.ok.injEq, true_and] at h
    subst h
    simp [Optimizer.logInfo]
  | some pass =>
    simp only [hL] at h
    simp only [Optimizer.logInfo] at h
    split at h
    · rename_i hm
      simp only [Outcome.ok.injEq, true_and] at h
      subst h
      simp only [Bool.not_eq_true', Bool.not_eq_true] at hm
      simp [hm]
    · rename_i hm
      have hlog := applyPass_log env pass { o with log := o.log ++ ["== Running pass: " ++ x] }
      split at h
      · rename_i v o2 hA
        simp only [Outcome.ok.injEq, true_and] at h
        subst h
        rw [hA] at hlog
        simp only [Outcome.state] at hlog
        simp only [Bool.not_eq_true', Bool.not_eq_true, Bool.not_eq_false] at hm
        simp [hm, hlog]
      · simp at h

theorem RunPasses_log (env : Env G W P Prog) (l : List String) (o o1 : Optimizer G W Prog)
    (h : RunPasses env l o = .ok () o1) :
    o1.log = o.log ++ l.flatMap (passLines env o.valid_places_) := by
  induction l generalizing o with
  | nil =>
    simp only [RunPasses_nil, Outcome.ok.injEq, true_and] at h
    subst h
    simp
  | cons x rest ih =>
    rw [RunPasses_cons] at h
    cases hb : RunPasses.body env x o with
    | fatal e o2 => simp [hb] at h
    | ok v o2 =>
      simp only [hb] at h
      rw [ih o2 h, body_log env x o o2 hb, (body_frame env x o o2 hb).2.1]
      simp [List.flatMap_cons]

/-- `Run` depends on its pass list only through one call of `RunPasses`: either it
stops before the pass loop, in the same way for every pass list, or there is one
state from which the chosen list is run. -/
theorem Run_split (env : Env G W P Prog) (lw : Bool) (o : Optimizer G W Prog)
    (program : Prog) (vp : List Place) (factor : KernelPickFactor) :
    (∃ e st, ∀ passes, Run env lw o program vp factor passes = .fatal e st) ∨
    (∃ o1 : Optimizer G W Prog, o1.valid_places_ = vp ∧ o1.log = o.log ∧ ∀ passes,
        Run env lw o program vp factor passes =
          match RunPasses env (if passes = [] then passes_local lw else passes) o1 with
          | .ok _ o2 => .ok () { o2 with exec_scope_ := env.exec_scope program }
          | .fatal e o2 => .fatal e o2) := by
  by_cases hvp : vp.isEmpty = true
  · left
    exact ⟨_, _, fun passes => by unfold Run; simp only [hvp, if_true]; rfl⟩
  by_cases hg : o.graph_.isSome = true
  · left
    exact ⟨_, _, fun passes => by unfold Run; simp only [hvp, hg, if_true, if_false]; rfl⟩
  cases hB : env.Build env.NewSSAGraph program vp o.world with
  | error e =>
    left
    exact ⟨_, _, fun passes => by
      unfold Run; simp only [hvp, hg, if_false, hB]; rfl⟩
  | ok r =>
    obtain ⟨g, w⟩ := r
    cases hS : env.SpecifyKernelPickTactic factor w with
    | error e =>
      left
      exact ⟨_, _, fun passes => by
        unfold Run; simp only [hvp, hg, if_false, hB, hS]; rfl⟩
    | ok w1 =>
      cases hI : InitTargetTypeTransformPass env
          { graph_ := some (env.SetValidPlaces g vp), valid_places_ := vp,
            exec_scope_ := o.exec_scope_, program_ := some program, world := w1,
            log := o.log } with
      | fatal e o1 =>
        left
        exact ⟨_, _, fun passes => by
          unfold Run; simp only [hvp, hg, if_false, hB, hS, hI]; rfl⟩
      | ok v o1 =>
        right
        have hf := InitTargetTypeTransformPass_frame env _ o1 hI
        refine ⟨o1, hf.2.1.2.1, hf.2.2, fun passes => ?_⟩
        unfold Run
        simp only [hvp, hg, if_false, hB, hS, hI]
        cases passes <;> simp <;> generalize RunPasses env _ o1 = r <;> cases r <;> rfl


end OptimizerLemmas

theorem passes_local_length (lw : Bool) : (passes_local lw).length = if lw then 31 else 30 := by
  cases lw <;> rfl

/-! ## The `Optimizer`: entry checks, the pass loop, the choice of the pass list -/

section OptimizerClaims

variable {G W P Prog : Type}

/-- C1: `Run` called with an empty valid-places list stops at the check
`CHECK(!valid_places.empty())`, for every program, tactic and pass list. The state
at the stop differs from the state at the call only in `program_` and
`valid_places_`: the graph pointer is what it was (no graph was built), and
neither the state outside the object nor the log has changed (no pass was looked
up or applied). -/
theorem Run_empty_valid_places_fatal (env : Env G W P Prog) (lw : Bool)
    (o : Optimizer G W Prog) (program : Prog) (factor : KernelPickFactor)
    (passes : List String) :
    Run env lw o program [] factor passes =
        .fatal (.check "!valid_places.empty()" "At least one valid_place should be set")
          { o with program_ := some program, valid_places_ := [] } ∧
      (Run env lw o program [] factor passes).state.graph_ = o.graph_ ∧
      (Run env lw o program [] factor passes).state.world = o.world ∧
      (Run env lw o program [] factor passes).state.log = o.log :=
  ⟨rfl, rfl, rfl, rfl⟩

/-- C2, as amended: once a call of `Run` has completed on an `Optimizer`, then after
any further operations that complete the graph still exists, and every later call
of `Run` stops, whatever its arguments: at `duplicate optimize found` when its
valid-places list is not empty, and at `At least one valid_place should be set`
when it is empty, because that check comes first. -/
theorem Run_after_Run_fatal (env : Env G W P Prog) (lw : Bool)
    (o o1 : Optimizer G W Prog) (program : Prog) (vp : List Place) (factor : KernelPickFactor)
    (passes : List String) (h : Run env lw o program vp factor passes = .ok () o1)
    (ops : List (Op G Prog)) (o2 : Optimizer G W Prog)
    (h2 : runOps env lw ops o1 = .ok () o2)
    (program2 : Prog) (vp2 : List Place) (factor2 : KernelPickFactor) (passes2 : List String) :
    o2.graph_.isSome = true ∧
      Run env lw o2 program2 vp2 factor2 passes2 =
        .fatal (if vp2 = [] then
                  .check "!valid_places.empty()" "At least one valid_place should be set"
                else .check "!graph_" "duplicate optimize found")
          { o2 with program_ := some program2, valid_places_ := vp2 } := by
  have hg := runOps_graph env lw ops o1 o2 h2 (Run_ok env lw o o1 program vp factor passes h).2.2.1
  exact ⟨hg, Run_of_graph env lw o2 hg program2 vp2 factor2 passes2⟩

/-- Witness of C2: the first `Run` completes, a graph edit and a program generation
follow, and a second `Run` with a non-empty valid-places list stops at
`duplicate optimize found`. -/
theorem Run_after_Run_fatal_witness :
    Run Demo.env false Demo.fresh 7 [Demo.host] Demo.factor ["append_node_pass"]
        = .ok () Demo.afterRun ∧
      runOps Demo.env false [.mutable_ssa_graph (fun g => g ++ ["edit"]), .GenRuntimeProgram]
        Demo.afterRun = .ok () Demo.afterOps ∧
      Demo.afterOps.graph_.isSome = true ∧
      Run Demo.env false Demo.afterOps 8 [Demo.host] Demo.factor [] =
        .fatal (if [Demo.host] = [] then
                  .check "!valid_places.empty()" "At least one valid_place should be set"
                else .check "!graph_" "duplicate optimize found")
          { Demo.afterOps with program_ := some 8, valid_places_ := [Demo.host] } :=
  ⟨rfl, rfl,
    Run_after_Run_fatal Demo.env false Demo.fresh Demo.afterRun 7 [Demo.host] Demo.factor
      ["append_node_pass"] rfl [.mutable_ssa_graph (fun g => g ++ ["edit"]), .GenRuntimeProgram]
      Demo.afterOps rfl 8 [Demo.host] Demo.factor []⟩

/-- Counterexample to C2 as stated: after a completed `Run`, a second `Run` with an
empty valid-places list stops at `At least one valid_place should be set`, not at
`duplicate optimize found`. -/
theorem second_Run_empty_valid_places_not_duplicate :
    Run Demo.env false Demo.fresh 7 [Demo.host] Demo.factor ["append_node_pass"]
        = .ok () Demo.afterRun ∧
      Run Demo.env false Demo.afterRun 7 [] Demo.factor ["append_node_pass"]
        = .fatal (.check "!valid_places.empty()" "At least one valid_place should be set")
            { Demo.afterRun with valid_places_ := [] } ∧
      ∀ st, Run Demo.env false Demo.afterRun 7 [] Demo.factor ["append_node_pass"]
        ≠ .fatal (.check "!graph_" "duplicate optimize found") st := by
  refine ⟨rfl, rfl, ?_⟩
  intro st h
  have h2 : Run Demo.env false Demo.afterRun 7 [] Demo.factor ["append_node_pass"]
        = .fatal (.check "!valid_places.empty()" "At least one valid_place should be set")
            { Demo.afterRun with valid_places_ := [] } := rfl
  rw [h2] at h
  simp at h

/-- C3: pass skip transparency. If the name `x` does not resolve in the registry,
`RunPasses` on a list with `x` inserted at any position ends exactly as `RunPasses`
on the list without `x` does, the log apart: same completion or same fatal stop,
same `Optimizer` members, same state outside the object; in particular the same
graph. -/
theorem RunPasses_skip_unregistered (env : Env G W P Prog) (x : String)
    (hx : env.LookUp x = none) (l1 l2 : List String) (o : Optimizer G W Prog) :
    (RunPasses env (l1 ++ x :: l2) o).eraseLog = (RunPasses env (l1 ++ l2) o).eraseLog ∧
      (RunPasses env (l1 ++ x :: l2) o).state.graph_
        = (RunPasses env (l1 ++ l2) o).state.graph_ :=
  ⟨RunPasses_skip env x hx l1 l2 o,
    eraseLog_state_graph _ _ (RunPasses_skip env x hx l1 l2 o)⟩

/-- Witness of C3: the unregistered name `no_such_pass` between two registered
passes. -/
theorem RunPasses_skip_unregistered_witness :
    Demo.env.LookUp "no_such_pass" = none ∧
      (RunPasses Demo.env (["append_node_pass"] ++ "no_such_pass" :: ["never_matches_pass"])
          Demo.afterRun).eraseLog
        = (RunPasses Demo.env (["append_node_pass"] ++ ["never_matches_pass"])
            Demo.afterRun).eraseLog ∧
      (RunPasses Demo.env (["append_node_pass"] ++ "no_such_pass" :: ["never_matches_pass"])
          Demo.afterRun).state.graph_
        = (RunPasses Demo.env (["append_node_pass"] ++ ["never_matches_pass"])
            Demo.afterRun).state.graph_ :=
  ⟨rfl, RunPasses_skip_unregistered Demo.env "no_such_pass" rfl ["append_node_pass"]
    ["never_matches_pass"] Demo.afterRun⟩

/-- C4: `RunPasses` handles the names in list order, each from the state its
predecessor left. For one name that resolves to a pass which matches the set of the
targets of the stored valid places and matches the kernels, the pass is applied to the
graph: when `Apply` returns the graph `g1` and the outside state `w1`, the turn
completes with `graph_` holding `g1` and the outside state `w1`, and when `Apply` stops,
the turn stops with it (likewise for an `Apply` handed the null graph pointer). In every
other case (the name does not resolve, or the pass does not match the targets or the
kernels) the turn completes, it is never fatal, `Apply` has no effect on the result,
the graph, the other members and the outside state are the ones before the turn, and
only the log has grown; the loop goes on with the next name. -/
theorem RunPasses_applies_iff (env : Env G W P Prog) :
    (∀ (x : String) (rest : List String) (o : Optimizer G W Prog),
        RunPasses env (x :: rest) o =
          match RunPasses env [x] o with
          | .ok _ o1 => RunPasses env rest o1
          | .fatal e o1 => .fatal e o1) ∧
    (∀ (x : String) (o : Optimizer G W Prog) (pass : P),
        env.LookUp x = some pass →
        env.PassMatchesTarget pass (o.valid_places_.map (fun place => place.target)).toFinset
          = true →
        env.PassMatchesKernels pass = true →
        (∀ (g g1 : G) (w1 : W), o.graph_ = some g → env.Apply pass g o.world = .ok (g1, w1) →
          RunPasses env [x] o =
            .ok () { graph_ := some g1, valid_places_ := o.valid_places_,
                     exec_scope_ := o.exec_scope_, program_ := o.program_, world := w1,
                     log := o.log ++ ["== Running pass: " ++ x, "== Finished running: " ++ x] }) ∧
        (∀ (g : G) (e : Fatal), o.graph_ = some g → env.Apply pass g o.world = .error e →
          RunPasses env [x] o =
            .fatal e { graph_ := o.graph_, valid_places_ := o.valid_places_,
                       exec_scope_ := o.exec_scope_, program_ := o.program_, world := o.world,
                       log := o.log ++ ["== Running pass: " ++ x] }) ∧
        (∀ (w1 : W), o.graph_ = none → env.ApplyNull pass o.world = .ok w1 →
          RunPasses env [x] o =
            .ok () { graph_ := none, valid_places_ := o.valid_places_,
                     exec_scope_ := o.exec_scope_, program_ := o.program_, world := w1,
                     log := o.log ++ ["== Running pass: " ++ x, "== Finished running: " ++ x] }) ∧
        (∀ (e : Fatal), o.graph_ = none → env.ApplyNull pass o.world = .error e →
          RunPasses env [x] o =
            .fatal e { graph_ := o.graph_, valid_places_ := o.valid_places_,
                       exec_scope_ := o.exec_scope_, program_ := o.program_, world := o.world,
                       log := o.log ++ ["== Running pass: " ++ x] })) ∧
    (∀ (x : String) (o : Optimizer G W Prog),
        (∀ pass, env.LookUp x = some pass →
          ¬ (env.PassMatchesTarget pass
                (o.valid_places_.map (fun place => place.target)).toFinset = true ∧
              env.PassMatchesKernels pass = true)) →
        ∃ line, RunPasses env [x] o =
          .ok () { graph_ := o.graph_, valid_places_ := o.valid_places_,
                   exec_scope_ := o.exec_scope_, program_ := o.program_, world := o.world,
                   log := o.log ++ ["== Running pass: " ++ x, line] }) := by
  refine ⟨?_, ?_, ?_⟩
  · intro x rest o
    rw [RunPasses_single]
    generalize hb : RunPasses.body env x o = r
    have hc := RunPasses_cons env x rest o
    rw [hb] at hc
    exact hc.trans (by cases r <;> rfl)
  · intro x o pass hL hT hK
    refine ⟨?_, ?_, ?_, ?_⟩
    · intro g g1 w1 hg hA
      rw [RunPasses_single]
      unfold RunPasses.body
      simp [hL, targetsOf_eq, hT, hK, applyPass, Optimizer.logInfo, hg, hA]
    · intro g e hg hA
      rw [RunPasses_single]
      unfold RunPasses.body
      simp [hL, targetsOf_eq, hT, hK, applyPass, Optimizer.logInfo, hg, hA]
    · intro w1 hg hA
      rw [RunPasses_single]
      unfold RunPasses.body
      simp [hL, targetsOf_eq, hT, hK, applyPass, Optimizer.logInfo, hg, hA]
    · intro e hg hA
      rw [RunPasses_single]
      unfold RunPasses.body
      simp [hL, targetsOf_eq, hT, hK, applyPass, Optimizer.logInfo, hg, hA]
  · intro x o hno
    rw [RunPasses_single]
    unfold RunPasses.body
    cases hL : env.LookUp x with
    | none =>
      exact ⟨"   - Skip " ++ x ++ " because the pass isn\x27t found.",
        by simp [Optimizer.logInfo]⟩
    | some pass =>
      have hm := hno pass hL
      simp only [targetsOf_eq, Optimizer.logInfo]
      split
      · exact ⟨"   - Skip " ++ x ++ " because the target or kernel does not match.",
          by simp⟩
      · rename_i hmatched
        exfalso
        apply hm
        simpa using hmatched

/-- Witness of C4: on the `Optimizer` left by a `Run`, `append_node_pass` is applied and
the graph gets a node; an `Apply` that stops, stops the turn; on the null graph the pass
is handed the null pointer; the unregistered `no_such_pass` and the registered
`never_matches_pass`, which matches no target, only write to the log. -/
theorem RunPasses_applies_iff_witness :
    RunPasses Demo.env ["append_node_pass"] Demo.afterRun =
        .ok () { graph_ := some ["op7", "node", "node"],
                 valid_places_ := Demo.afterRun.valid_places_,
                 exec_scope_ := Demo.afterRun.exec_scope_, program_ := Demo.afterRun.program_,
                 world := (),
                 log := Demo.afterRun.log ++ ["== Running pass: " ++ "append_node_pass",
                   "== Finished running: " ++ "append_node_pass"] } ∧
      RunPasses Demo.failEnv ["append_node_pass"] Demo.afterRun =
        .fatal (.inside "Apply")
          { graph_ := Demo.afterRun.graph_, valid_places_ := Demo.afterRun.valid_places_,
            exec_scope_ := Demo.afterRun.exec_scope_, program_ := Demo.afterRun.program_,
            world := Demo.afterRun.world,
            log := Demo.afterRun.log ++ ["== Running pass: " ++ "append_node_pass"] } ∧
      RunPasses Demo.failEnv ["append_node_pass"] Demo.beforeRun =
        .ok () { graph_ := none, valid_places_ := Demo.beforeRun.valid_places_,
                 exec_scope_ := Demo.beforeRun.exec_scope_, program_ := Demo.beforeRun.program_,
                 world := (),
                 log := Demo.beforeRun.log ++ ["== Running pass: " ++ "append_node_pass",
                   "== Finished running: " ++ "append_node_pass"] } ∧
      RunPasses Demo.env ["append_node_pass"] Demo.beforeRun =
        .fatal (.nullDeref "graph_")
          { graph_ := Demo.beforeRun.graph_, valid_places_ := Demo.beforeRun.valid_places_,
            exec_scope_ := Demo.beforeRun.exec_scope_, program_ := Demo.beforeRun.program_,
            world := Demo.beforeRun.world,
            log := Demo.beforeRun.log ++ ["== Running pass: " ++ "append_node_pass"] } ∧
      (∃ line, RunPasses Demo.env ["no_such_pass"] Demo.afterRun =
        .ok () { graph_ := Demo.afterRun.graph_, valid_places_ := Demo.afterRun.valid_places_,
                 exec_scope_ := Demo.afterRun.exec_scope_, program_ := Demo.afterRun.program_,
                 world := Demo.afterRun.world,
                 log := Demo.afterRun.log ++ ["== Running pass: " ++ "no_such_pass", line] }) ∧
      (∃ line, RunPasses Demo.env ["never_matches_pass"] Demo.afterRun =
        .ok () { graph_ := Demo.afterRun.graph_, valid_places_ := Demo.afterRun.valid_places_,
                 exec_scope_ := Demo.afterRun.exec_scope_, program_ := Demo.afterRun.program_,
                 world := Demo.afterRun.world,
                 log := Demo.afterRun.log ++ ["== Running pass: " ++ "never_matches_pass",
                   line] }) :=
  ⟨((RunPasses_applies_iff Demo.env).2.1 "append_node_pass" Demo.afterRun 2 rfl rfl rfl).1
      ["op7", "node"] ["op7", "node", "node"] () rfl rfl,
    ((RunPasses_applies_iff Demo.failEnv).2.1 "append_node_pass" Demo.afterRun 2 rfl rfl rfl).2.1
      ["op7", "node"] (.inside "Apply") rfl rfl,
    ((RunPasses_applies_iff Demo.failEnv).2.1 "append_node_pass" Demo.beforeRun 2 rfl rfl rfl).2.2.1 () rfl rfl,
    ((RunPasses_applies_iff Demo.env).2.1 "append_node_pass" Demo.beforeRun 2 rfl rfl rfl).2.2.2
      (.nullDeref "graph_") rfl rfl,
    (RunPasses_applies_iff Demo.env).2.2 "no_such_pass" Demo.afterRun
      (fun pass h => by simp [Demo.env, Demo.LookUp] at h),
    (RunPasses_applies_iff Demo.env).2.2 "never_matches_pass" Demo.afterRun
      (fun pass h => by
        have hp : pass = 1 := by
          have h1 : Demo.env.LookUp "never_matches_pass" = some 1 := rfl
          rw [h1] at h
          exact (Option.some.inj h).symm
        subst hp
        intro hc
        exact absurd hc.1 (by decide))⟩

/-- C9: on an `Optimizer` on which no `Run` has completed, whatever other
operations were performed on it since its construction, `GenRuntimeProgram` stops
with a fatal and returns no runtime program. -/
theorem GenRuntimeProgram_before_Run_fatal (env : Env G W P Prog)
    (lw : Bool) (w : W) (log : List String) (ops : List (Op G Prog))
    (hops : ∀ op ∈ ops, op.isRun = false) (o : Optimizer G W Prog)
    (h : runOps env lw ops (Optimizer.fresh w log) = .ok () o) :
    ∃ e st, GenRuntimeProgram env o = .fatal e st :=
  GenRuntimeProgram_of_no_scope env o
    ((runOps_frame env lw ops hops (Optimizer.fresh w log) o h).2.2.1)

/-- Witness of C9: a fresh `Optimizer` on which only `exec_scope()` and a
`RunPasses` with an unregistered name were called. -/
theorem GenRuntimeProgram_before_Run_fatal_witness :
    runOps Demo.env false [.exec_scope, .RunPasses ["no_such_pass"]] Demo.fresh
        = .ok () Demo.beforeRun ∧
      ∃ e st, GenRuntimeProgram Demo.env Demo.beforeRun = .fatal e st :=
  ⟨rfl, GenRuntimeProgram_before_Run_fatal Demo.env false () []
    [.exec_scope, .RunPasses ["no_such_pass"]] (by simp [Op.isRun]) Demo.beforeRun rfl⟩

/-- C6: `Run` depends on the caller's pass list only through one call of `RunPasses`.
Either `Run` stops before the pass loop, in the same way for every pass list, or there
is one state `o1`, the same for every pass list, from which `Run` runs `RunPasses` on
the caller's list when that list is not empty and on the default list when it is
empty, and then records the execution scope. When `Run` completes, the log it wrote
is, name by name and in the order of that list, the lines of the names of the chosen
list: no other name was run. -/
theorem Run_runs_chosen_pass_list (env : Env G W P Prog) (lw : Bool) (o : Optimizer G W Prog)
    (program : Prog) (vp : List Place) (factor : KernelPickFactor) :
    ((∃ e st, ∀ passes, Run env lw o program vp factor passes = .fatal e st) ∨
      (∃ o1 : Optimizer G W Prog, o1.valid_places_ = vp ∧ o1.log = o.log ∧ ∀ passes,
        Run env lw o program vp factor passes =
          match RunPasses env (if passes = [] then passes_local lw else passes) o1 with
          | .ok _ o2 => .ok () { o2 with exec_scope_ := env.exec_scope program }
          | .fatal e o2 => .fatal e o2)) ∧
    (∀ (passes : List String) (o2 : Optimizer G W Prog),
        Run env lw o program vp factor passes = .ok () o2 →
        o2.log = o.log ++
          (if passes = [] then passes_local lw else passes).flatMap (passLines env vp)) := by
  refine ⟨Run_split env lw o program vp factor, ?_⟩
  intro passes o2 h
  rcases Run_split env lw o program vp factor with ⟨e, st, hf⟩ | ⟨o1, hvp, hlog, hr⟩
  · rw [hf passes] at h
    simp at h
  · rw [hr passes] at h
    cases hR : RunPasses env (if passes = [] then passes_local lw else passes) o1 with
    | fatal e o3 => simp [hR] at h
    | ok v o3 =>
      simp only [hR, Outcome.ok.injEq, true_and] at h
      subst h
      have := RunPasses_log env _ o1 o3 hR
      rw [hvp, hlog] at this
      exact this

/-- Witness of C6: a `Run` with the one-name list `append_node_pass`. -/
theorem Run_runs_chosen_pass_list_witness :
    Run Demo.env false Demo.fresh 7 [Demo.host] Demo.factor ["append_node_pass"]
        = .ok () Demo.afterRun ∧
      Demo.afterRun.log = Demo.fresh.log ++
        (if ["append_node_pass"] = [] then passes_local false else ["append_node_pass"]).flatMap
          (passLines Demo.env [Demo.host]) :=
  ⟨rfl, (Run_runs_chosen_pass_list Demo.env false Demo.fresh 7 [Demo.host] Demo.factor).2
    ["append_node_pass"] Demo.afterRun rfl⟩

end OptimizerClaims

/-! ## The default pass list -/

/-- C7: in the default pass list, in either build configuration, every occurrence of a
cast pass (target, precision, layout) has a `variable_place_inference_pass` before
it, and every name between that inference pass and the cast pass is the observer
`argument_type_display_pass`. -/
theorem default_cast_after_fresh_inference (lw : Bool) (i : Nat) (c : String) (hc : c ∈ cast_passes)
    (hi : (passes_local lw)[i]? = some c) :
    ∃ j, j < i ∧ (passes_local lw)[j]? = some "variable_place_inference_pass" ∧
      ∀ k, j < k → k < i → (passes_local lw)[k]? = some "argument_type_display_pass" := by
  have hlt : i < (passes_local lw).length := by
    by_contra hge
    rw [List.getElem?_eq_none (by omega)] at hi
    exact absurd hi (by simp)
  rw [passes_local_length] at hlt
  cases lw
  · simp only [Bool.false_eq_true, if_false] at hlt
    interval_cases i <;> simp [passes_local] at hi <;> subst hi <;>
      first
      | (exfalso; revert hc; decide)
      | (refine ⟨11, by omega, rfl, fun k h1 h2 => ?_⟩
         have hk : k = 12 := by omega
         subst hk
         rfl)
      | (refine ⟨18, by omega, rfl, fun k h1 h2 => ?_⟩
         have hk : k = 19 := by omega
         subst hk
         rfl)
      | (refine ⟨21, by omega, rfl, fun k h1 h2 => ?_⟩
         have hk : k = 22 := by omega
         subst hk
         rfl)
  · simp only [if_true] at hlt
    interval_cases i <;> simp [passes_local] at hi <;> subst hi <;>
      first
      | (exfalso; revert hc; decide)
      | (refine ⟨12, by omega, rfl, fun k h1 h2 => ?_⟩
         have hk : k = 13 := by omega
         subst hk
         rfl)
      | (refine ⟨19, by omega, rfl, fun k h1 h2 => ?_⟩
         have hk : k = 20 := by omega
         subst hk
         rfl)
      | (refine ⟨22, by omega, rfl, fun k h1 h2 => ?_⟩
         have hk : k = 23 := by omega
         subst hk
         rfl)

/-- Witness of C7: the precision cast pass, at index 21 of the default list of a
light-weight or CUDA build. -/
theorem default_cast_after_fresh_inference_witness : "type_precision_cast_pass" ∈ cast_passes ∧
    (passes_local true)[21]? = some "type_precision_cast_pass" ∧
    ∃ j, j < 21 ∧ (passes_local true)[j]? = some "variable_place_inference_pass" ∧
      ∀ k, j < k → k < 21 → (passes_local true)[k]? = some "argument_type_display_pass" :=
  ⟨by decide, rfl, default_cast_after_fresh_inference true 21 "type_precision_cast_pass" (by decide) rfl⟩

/-- C8: the default pass list, in either build configuration, is
`fusion ++ static_kernel_pick_pass :: mid ++ runtime_context_assign_pass :: tail` where
every name of `fusion` is a fusion or elimination pass and no later name is one;
`static_kernel_pick_pass` occurs nowhere else; no inference or cast pass is in
`fusion`; the cast passes of `mid` are, in this order, target, precision, layout; no
inference or cast pass is in `tail`; and the last name is `memory_optimize_pass`. -/
theorem default_phase_order (lw : Bool) :
    ∃ fusion mid tail : List String,
      passes_local lw
        = fusion ++ "static_kernel_pick_pass" :: mid ++ "runtime_context_assign_pass" :: tail ∧
      (∀ x ∈ fusion, isFusionPass x = true) ∧
      (∀ x ∈ mid ++ "runtime_context_assign_pass" :: tail, isFusionPass x = false) ∧
      "static_kernel_pick_pass" ∉ fusion ++ mid ++ "runtime_context_assign_pass" :: tail ∧
      (∀ x ∈ fusion, x ≠ "variable_place_inference_pass" ∧ x ∉ cast_passes) ∧
      mid.filter (fun x => decide (x ∈ cast_passes)) = cast_passes ∧
      (∀ x ∈ tail, x ≠ "variable_place_inference_pass" ∧ x ∉ cast_passes) ∧
      (passes_local lw).getLast? = some "memory_optimize_pass" := by
  cases lw
  · refine ⟨(passes_local false).take 10, ((passes_local false).drop 11).take 16,
      (passes_local false).drop 28, rfl, ?_, ?_, ?_, ?_, ?_, ?_, rfl⟩ <;> decide
  · refine ⟨(passes_local true).take 11, ((passes_local true).drop 12).take 16,
      (passes_local true).drop 29, rfl, ?_, ?_, ?_, ?_, ?_, ?_, rfl⟩ <;> decide

/-! ## Feed and fetch names -/

theorem collectFeedFetch_foldl (ops : List OpDesc) (acc : List OpDesc × List OpDesc) :
    ops.foldl
      (fun acc op =>
        if op.type = "feed" then (acc.1 ++ [op], acc.2)
        else if op.type = "fetch" then (acc.1, acc.2 ++ [op])
        else acc) acc
      = (acc.1 ++ ops.filter (fun op => op.type = "feed"),
         acc.2 ++ ops.filter (fun op => op.type = "fetch")) := by
  induction ops generalizing acc with
  | nil => simp
  | cons op rest ih =>
    rw [List.foldl_cons, ih]
    by_cases h1 : op.type = "feed"
    · have h2 : ¬ op.type = "fetch" := by rw [h1]; decide
      simp [h1, List.filter_cons]
    · by_cases h2 : op.type = "fetch"
      · simp [h2, List.filter_cons]
      · simp [h1, h2, List.filter_cons]

/-- The feeds and the fetches that `PrepareFeedFetch` collects are the operators of
type `feed` and of type `fetch`, in the order of the list. -/
theorem collectFeedFetch_eq (ops : List OpDesc) :
    collectFeedFetch ops
      = (ops.filter (fun op => op.type = "feed"), ops.filter (fun op => op.type = "fetch")) := by
  unfold collectFeedFetch
  rw [collectFeedFetch_foldl]
  simp

theorem assignName_ok (what : String) (arg : OpDesc → Option (List String)) (op : OpDesc)
    (names : List String) (c : Int) (name : String) (rest : List String)
    (hc : op.GetAttr "col" = some c) (h0 : 0 ≤ c) (hlt : c.toNat < names.length)
    (ha : arg op = some (name :: rest)) :
    assignName what arg op names = .ok () (names.set c.toNat name) := by
  unfold assignName
  simp only [ha, hc]
  rw [if_pos ⟨h0, hlt⟩]

/-- A naming loop whose indices are in range completes and keeps the length. -/
theorem assignNames_complete (what : String) (arg : OpDesc → Option (List String))
    (fs : List OpDesc) (names : List String)
    (hcol : ∀ f ∈ fs, ∃ c, f.GetAttr "col" = some c ∧ 0 ≤ c ∧ c.toNat < names.length)
    (harg : ∀ f ∈ fs, ∃ name rest, arg f = some (name :: rest)) :
    ∃ names1, assignNames what arg fs names = .ok () names1 ∧ names1.length = names.length := by
  induction fs generalizing names with
  | nil => exact ⟨names, rfl, rfl⟩
  | cons f rest ih =>
    obtain ⟨c, hc, h0, hlt⟩ := hcol f (List.mem_cons_self _ _)
    obtain ⟨name, tl, ha⟩ := harg f (List.mem_cons_self _ _)
    have hstep := assignName_ok what arg f names c name tl hc h0 hlt ha
    obtain ⟨names1, h1, hlen⟩ := ih (names.set c.toNat name)
      (fun g hg => by
        obtain ⟨c2, hc2, h02, hlt2⟩ := hcol g (List.mem_cons_of_mem _ hg)
        exact ⟨c2, hc2, h02, by simpa using hlt2⟩)
      (fun g hg => harg g (List.mem_cons_of_mem _ hg))
    refine ⟨names1, ?_, by simpa using hlen⟩
    simp only [assignNames, hstep, h1]

/-- A naming loop whose indices are in range and pairwise distinct leaves, for every
operator, its name at its index, and leaves the other entries alone. -/
theorem assignNames_spec (what : String) (arg : OpDesc → Option (List String))
    (fs : List OpDesc) (names : List String)
    (hcol : ∀ f ∈ fs, ∃ c, f.GetAttr "col" = some c ∧ 0 ≤ c ∧ c.toNat < names.length)
    (harg : ∀ f ∈ fs, ∃ name rest, arg f = some (name :: rest))
    (hnd : (fs.map (fun f => f.GetAttr "col")).Nodup) :
    ∃ names1, assignNames what arg fs names = .ok () names1 ∧ names1.length = names.length ∧
      (∀ f ∈ fs, ∀ c name rest, f.GetAttr "col" = some c → arg f = some (name :: rest) →
        names1[c.toNat]? = some name) ∧
      (∀ i : Nat, (∀ f ∈ fs, f.GetAttr "col" ≠ some (i : Int)) → names1[i]? = names[i]?) := by
  induction fs generalizing names with
  | nil => exact ⟨names, rfl, rfl, by simp, fun i _ => rfl⟩
  | cons f rest ih =>
    obtain ⟨c, hc, h0, hlt⟩ := hcol f (List.mem_cons_self _ _)
    obtain ⟨name, tl, ha⟩ := harg f (List.mem_cons_self _ _)
    have hstep := assignName_ok what arg f names c name tl hc h0 hlt ha
    rw [List.map_cons, List.nodup_cons] at hnd
    obtain ⟨names1, h1, hlen, hmine, hother⟩ := ih (names.set c.toNat name)
      (fun g hg => by
        obtain ⟨c2, hc2, h02, hlt2⟩ := hcol g (List.mem_cons_of_mem _ hg)
        exact ⟨c2, hc2, h02, by simpa using hlt2⟩)
      (fun g hg => harg g (List.mem_cons_of_mem _ hg)) hnd.2
    have hcast : ((c.toNat : Nat) : Int) = c := Int.toNat_of_nonneg h0
    refine ⟨names1, ?_, by simpa using hlen, ?_, ?_⟩
    · simp only [assignNames, hstep, h1]
    · intro g hg c2 name2 tl2 hc2 ha2
      rcases List.mem_cons.1 hg with rfl | hg
      · rw [hc] at hc2
        rw [ha] at ha2
        obtain rfl : c = c2 := by simpa using hc2
        obtain rfl : name = name2 := by simp at ha2; exact ha2.1
        rw [hother c.toNat]
        · simp [hlt]
        · intro f2 hf2 hcf2
          apply hnd.1
          rw [hc, ← hcast, ← hcf2]
          exact List.mem_map_of_mem _ hf2
      · exact hmine g hg c2 name2 tl2 hc2 ha2
    · intro i hi
      rw [hother i (fun f2 hf2 => hi f2 (List.mem_cons_of_mem _ hf2))]
      have hne : c.toNat ≠ i := by
        intro heq
        apply hi f (List.mem_cons_self _ _)
        rw [hc, ← heq, hcast]
      simp [List.getElem?_set, hne]

theorem resize_length (names : List String) (n : Nat) : (resize names n).length = n := by
  unfold resize
  simp only [List.length_append, List.length_take, List.length_replicate]
  omega

section PredictorClaims

variable {G W P Prog : Type}

theorem nameFeedFetch_input_names (ops : List OpDesc) (p : Predictor G W Prog)
    (names : List String)
    (h : assignNames "input_names_" (fun op => op.Output "Out")
      (ops.filter (fun op => op.type = "feed"))
      (resize p.input_names_ (ops.filter (fun op => op.type = "feed")).length) = .ok () names) :
    (Predictor.nameFeedFetch ops p).state.input_names_ = names ∧
      ((∃ names1, assignNames "output_names_" (fun op => op.Input "X")
          (ops.filter (fun op => op.type = "fetch"))
          (resize p.output_names_ (ops.filter (fun op => op.type = "fetch")).length)
            = .ok () names1) →
        (Predictor.nameFeedFetch ops p).isOk = true) := by
  unfold Predictor.nameFeedFetch
  simp only [collectFeedFetch_eq, h]
  constructor
  · split <;> rfl
  · rintro ⟨names1, h1⟩
    simp only [h1]
    rfl

/-- C5: feed ordering. Let `ops` be the operator list `PrepareFeedFetch` walks, with
`n` operators of type `feed` whose `col` attributes are pairwise distinct and lie in
`[0, n)`, each with a non-empty output `Out`. Then the feed loop completes (every
indexed write is in bounds), and the `input_names_` that `PrepareFeedFetch` leaves has
length `n` and holds, for every feed operator, at the index given by its `col`, the
first name of its output `Out`, whatever the order of the operators in the list. If
the fetch operators are well formed in the same way, `PrepareFeedFetch` completes. -/
theorem PrepareFeedFetch_feed_order (env : Env G W P Prog) (npu_or_xpu : Bool)
    (p p1 : Predictor G W Prog) (ops : List OpDesc)
    (hw : Predictor.walkedOps env npu_or_xpu p = .ok ops p1)
    (hcol : ∀ f ∈ ops, f.type = "feed" → ∃ c, f.GetAttr "col" = some c ∧ 0 ≤ c ∧
      c < ((ops.filter (fun op => op.type = "feed")).length : Int))
    (hnd : ((ops.filter (fun op => op.type = "feed")).map (fun f => f.GetAttr "col")).Nodup)
    (hout : ∀ f ∈ ops, f.type = "feed" → ∃ name rest, f.Output "Out" = some (name :: rest)) :
    ∃ names,
      assignNames "input_names_" (fun op => op.Output "Out")
          (ops.filter (fun op => op.type = "feed"))
          (resize p1.input_names_ (ops.filter (fun op => op.type = "feed")).length)
        = .ok () names ∧
      (Predictor.PrepareFeedFetch env npu_or_xpu p).state.input_names_ = names ∧
      names.length = (ops.filter (fun op => op.type = "feed")).length ∧
      (∀ f ∈ ops, f.type = "feed" → ∀ c name rest, f.GetAttr "col" = some c →
        f.Output "Out" = some (name :: rest) → names[c.toNat]? = some name) ∧
      ((∀ f ∈ ops, f.type = "fetch" → ∃ c, f.GetAttr "col" = some c ∧ 0 ≤ c ∧
            c < ((ops.filter (fun op => op.type = "fetch")).length : Int)) →
        (∀ f ∈ ops, f.type = "fetch" → ∃ name rest, f.Input "X" = some (name :: rest)) →
        (Predictor.PrepareFeedFetch env npu_or_xpu p).isOk = true) := by
  have hmem : ∀ (t : String) (f : OpDesc), f ∈ ops.filter (fun op => op.type = t) →
      f ∈ ops ∧ f.type = t := by
    intro t f hf
    simpa using List.mem_filter.1 hf
  obtain ⟨names, hass, hlen, hmine, -⟩ :=
    assignNames_spec "input_names_" (fun op => op.Output "Out")
      (ops.filter (fun op => op.type = "feed"))
      (resize p1.input_names_ (ops.filter (fun op => op.type = "feed")).length)
      (fun f hf => by
        obtain ⟨c, hc, h0, hlt⟩ := hcol f (hmem _ f hf).1 (hmem _ f hf).2
        refine ⟨c, hc, h0, ?_⟩
        rw [resize_length]
        omega)
      (fun f hf => hout f (hmem _ f hf).1 (hmem _ f hf).2) hnd
  have hpre : Predictor.PrepareFeedFetch env npu_or_xpu p = Predictor.nameFeedFetch ops p1 := by
    unfold Predictor.PrepareFeedFetch
    rw [hw]
  have hn := nameFeedFetch_input_names ops p1 names hass
  refine ⟨names, hass, ?_, ?_, ?_, ?_⟩
  · rw [hpre]
    exact hn.1
  · rw [hlen, resize_length]
  · intro f hf hty c name rest hc ho
    exact hmine f (List.mem_filter.2 ⟨hf, by simpa using hty⟩) c name rest hc ho
  · intro hcol2 hin
    rw [hpre]
    apply hn.2
    obtain ⟨names1, h1, -⟩ :=
      assignNames_complete "output_names_" (fun op => op.Input "X")
        (ops.filter (fun op => op.type = "fetch"))
        (resize p1.output_names_ (ops.filter (fun op => op.type = "fetch")).length)
        (fun f hf => by
          obtain ⟨c, hc, h0, hlt⟩ := hcol2 f (hmem _ f hf).1 (hmem _ f hf).2
          refine ⟨c, hc, h0, ?_⟩
          rw [resize_length]
          omega)
        (fun f hf => hin f (hmem _ f hf).1 (hmem _ f hf).2)
    exact ⟨names1, h1⟩

/-- Witness of C5: two feeds listed as `col = 1`, `col = 0` give the input names of
`col = 0`, then of `col = 1`. -/
theorem PrepareFeedFetch_feed_order_witness :
    (Predictor.PrepareFeedFetch Demo.env true Demo.predictor).state.input_names_ = ["a", "b"] ∧
    ∃ names,
      assignNames "input_names_" (fun op => op.Output "Out")
          (Demo.feedOps.filter (fun op => op.type = "feed"))
          (resize Demo.predictor.input_names_
            (Demo.feedOps.filter (fun op => op.type = "feed")).length)
        = .ok () names ∧
      (Predictor.PrepareFeedFetch Demo.env true Demo.predictor).state.input_names_ = names ∧
      names.length = (Demo.feedOps.filter (fun op => op.type = "feed")).length ∧
      (∀ f ∈ Demo.feedOps, f.type = "feed" → ∀ c name rest, f.GetAttr "col" = some c →
        f.Output "Out" = some (name :: rest) → names[c.toNat]? = some name) ∧
      ((∀ f ∈ Demo.feedOps, f.type = "fetch" → ∃ c, f.GetAttr "col" = some c ∧ 0 ≤ c ∧
            c < ((Demo.feedOps.filter (fun op => op.type = "fetch")).length : Int)) →
        (∀ f ∈ Demo.feedOps, f.type = "fetch" →
          ∃ name rest, f.Input "X" = some (name :: rest)) →
        (Predictor.PrepareFeedFetch Demo.env true Demo.predictor).isOk = true) :=
  ⟨rfl, PrepareFeedFetch_feed_order Demo.env true Demo.predictor Demo.predictor Demo.feedOps rfl
    (fun f hf hty => by
      simp only [Demo.feedOps, List.mem_cons, List.mem_singleton, List.not_mem_nil,
        or_false] at hf
      rcases hf with rfl | rfl | rfl | rfl
      · exact ⟨1, rfl, by decide, by decide⟩
      · exact ⟨0, rfl, by decide, by decide⟩
      · exact absurd hty (by decide)
      · exact absurd hty (by decide))
    (by decide)
    (fun f hf hty => by
      simp only [Demo.feedOps, List.mem_cons, List.mem_singleton, List.not_mem_nil,
        or_false] at hf
      rcases hf with rfl | rfl | rfl | rfl
      · exact ⟨"b", [], rfl⟩
      · exact ⟨"a", [], rfl⟩
      · exact absurd hty (by decide)
      · exact absurd hty (by decide))⟩

end PredictorClaims

/-! ## Fresh names -/

theorem digitChar_ne_underscore (d : Nat) (hd : d < 10) : Nat.digitChar d ≠ '_' := by
  interval_cases d <;> decide

theorem digitChar_ne_minus (d : Nat) (hd : d < 10) : Nat.digitChar d ≠ '-' := by
  interval_cases d <;> decide

theorem digitChar_inj (a b : Nat) (ha : a < 10) (hb : b < 10)
    (h : Nat.digitChar a = Nat.digitChar b) : a = b := by
  interval_cases a <;> interval_cases b <;> first | rfl | (exfalso; revert h; decide)

theorem decimalDigits_mem (n : Nat) (c : Char) (hc : c ∈ decimalDigits n) :
    ∃ d, d < 10 ∧ c = Nat.digitChar d := by
  unfold decimalDigits at hc
  split at hc
  · simp only [List.mem_singleton] at hc
    exact ⟨0, by decide, by rw [hc]; rfl⟩
  · simp only [List.mem_map, List.mem_reverse] at hc
    obtain ⟨d, hd, rfl⟩ := hc
    exact ⟨d, Nat.digits_lt_base (by decide) hd, rfl⟩

theorem decimalDigits_ne_nil (n : Nat) : decimalDigits n ≠ [] := by
  unfold decimalDigits
  split
  · simp
  · rename_i h
    simp [Nat.digits_ne_nil_iff_ne_zero, h]

theorem map_digitChar_inj (l1 l2 : List Nat) (h1 : ∀ d ∈ l1, d < 10) (h2 : ∀ d ∈ l2, d < 10)
    (h : l1.map Nat.digitChar = l2.map Nat.digitChar) : l1 = l2 := by
  induction l1 generalizing l2 with
  | nil =>
    cases l2 with
    | nil => rfl
    | cons b t => simp at h
  | cons a t ih =>
    cases l2 with
    | nil => simp at h
    | cons b t2 =>
      simp only [List.map_cons, List.cons.injEq] at h
      have hab := digitChar_inj a b (h1 a (List.mem_cons_self _ _)) (h2 b (List.mem_cons_self _ _)) h.1
      have ht := ih t2 (fun d hd => h1 d (List.mem_cons_of_mem _ hd))
        (fun d hd => h2 d (List.mem_cons_of_mem _ hd)) h.2
      rw [hab, ht]

theorem decimalDigits_inj (n m : Nat) (h : decimalDigits n = decimalDigits m) : n = m := by
  have key : ∀ k : Nat, k ≠ 0 → decimalDigits k ≠ ['0'] := by
    intro k hk hk0
    unfold decimalDigits at hk0
    rw [if_neg hk] at hk0
    have hl : (Nat.digits 10 k).reverse.map Nat.digitChar = [0].map Nat.digitChar := hk0
    have := map_digitChar_inj _ _
      (fun d hd => Nat.digits_lt_base (by decide) (List.mem_reverse.1 hd))
      (fun d hd => by simp at hd; omega) hl
    have hlast := Nat.getLast_digit_ne_zero 10 hk
    have hd : Nat.digits 10 k = [0] := by
      have := congrArg List.reverse this
      simpa using this
    simp [hd] at hlast
  by_cases hn : n = 0
  · by_cases hm : m = 0
    · rw [hn, hm]
    · exfalso
      apply key m hm
      rw [← h, hn]
      rfl
  · by_cases hm : m = 0
    · exfalso
      apply key n hn
      rw [h, hm]
      rfl
    · unfold decimalDigits at h
      rw [if_neg hn, if_neg hm] at h
      have := map_digitChar_inj _ _
        (fun d hd => Nat.digits_lt_base (by decide) (List.mem_reverse.1 hd))
        (fun d hd => Nat.digits_lt_base (by decide) (List.mem_reverse.1 hd)) h
      exact Nat.digits.injective 10 (List.reverse_injective this)


theorem to_string_data (n : Int) :
    (to_string n).data = if n < 0 then '-' :: decimalDigits n.natAbs else decimalDigits n.natAbs := by
  unfold to_string
  split <;> rfl

theorem underscore_not_mem_to_string (n : Int) : '_' ∉ (to_string n).data := by
  rw [to_string_data]
  intro h
  have hd : '_' ∈ decimalDigits n.natAbs := by
    split at h
    · rcases List.mem_cons.1 h with h1 | h1
      · exact absurd h1 (by decide)
      · exact h1
    · exact h
  obtain ⟨d, hd10, hc⟩ := decimalDigits_mem _ _ hd
  exact digitChar_ne_underscore d hd10 hc.symm

theorem to_string_inj (a b : Int) (h : to_string a = to_string b) : a = b := by
  have hdata := congrArg String.data h
  rw [to_string_data, to_string_data] at hdata
  have hhead : ∀ k : Nat, ∀ t : List Char, decimalDigits k ≠ '-' :: t := by
    intro k t hk
    obtain ⟨d, hd10, hc⟩ := decimalDigits_mem k '-' (by rw [hk]; exact List.mem_cons_self _ _)
    exact digitChar_ne_minus d hd10 hc.symm
  by_cases ha : a < 0 <;> by_cases hb : b < 0
  · rw [if_pos ha, if_pos hb] at hdata
    have := decimalDigits_inj _ _ (List.cons.inj hdata).2
    omega
  · rw [if_pos ha, if_neg hb] at hdata
    exact absurd hdata.symm (hhead _ _)
  · rw [if_neg ha, if_pos hb] at hdata
    exact absurd hdata (hhead _ _)
  · rw [if_neg ha, if_neg hb] at hdata
    have := decimalDigits_inj _ _ hdata
    omega

/-- Two lists that end in the same separator followed by a separator-free tail are
equal only when the parts before the separator are equal and the tails are equal. -/
theorem append_sep_inj (x : Char) (l1 l2 s1 s2 : List Char) (h1 : x ∉ s1) (h2 : x ∉ s2)
    (h : l1 ++ x :: s1 = l2 ++ x :: s2) : l1 = l2 ∧ s1 = s2 := by
  induction l1 generalizing l2 with
  | nil =>
    cases l2 with
    | nil => exact ⟨rfl, by simpa using h⟩
    | cons b t =>
      exfalso
      simp only [List.nil_append, List.cons_append, List.cons.injEq] at h
      apply h1
      rw [h.2]
      simp
  | cons a t ih =>
    cases l2 with
    | nil =>
      exfalso
      simp only [List.nil_append, List.cons_append, List.cons.injEq] at h
      apply h2
      rw [← h.2]
      simp
    | cons b t2 =>
      simp only [List.cons_append, List.cons.injEq] at h
      obtain ⟨rfl, hs⟩ := ih t2 h.2
      exact ⟨by rw [h.1], hs⟩

/-- The name `prefix_counter` determines the prefix and the counter. -/
theorem name_inj (p q : String) (a b : Int)
    (h : p ++ "_" ++ to_string a = q ++ "_" ++ to_string b) : p = q ∧ a = b := by
  have hdata := congrArg String.data h
  simp only [String.data_append] at hdata
  simp only [List.append_assoc, List.singleton_append] at hdata
  obtain ⟨hpq, hab⟩ := append_sep_inj '_' p.data q.data _ _
    (underscore_not_mem_to_string a) (underscore_not_mem_to_string b) hdata
  exact ⟨String.ext hpq, to_string_inj a b (String.ext hab)⟩

theorem wrapInt32_of_range (n : Int) (h0 : -2147483648 ≤ n) (h1 : n < 2147483648) :
    wrapInt32 n = n := by
  unfold wrapInt32
  omega

theorem UniqueName_step (m : String → Option Int) (done : List String) (p : String)
    (ht : Tracks m done) (hlt : done.count p + 1 < 2147483648) :
    (UniqueName m p).1 = p ++ "_" ++ to_string ((done.count p + 1 : Nat) : Int) ∧
      Tracks (UniqueName m p).2 (done ++ [p]) := by
  have hp := ht p
  unfold UniqueName
  by_cases h0 : done.count p = 0
  · rw [if_pos h0] at hp
    simp only [hp, h0]
    refine ⟨rfl, ?_⟩
    intro q
    by_cases hq : q = p
    · subst hq
      simp [h0]
    · have hpq : ¬ p = q := fun h => hq h.symm
      simp only [if_neg hq, List.count_append, List.count_cons, List.count_nil, ht q]
      simp [hpq]
  · rw [if_neg h0] at hp
    have hw : wrapInt32 ((done.count p : Int) + 1) = ((done.count p + 1 : Nat) : Int) := by
      rw [wrapInt32_of_range] <;> push_cast <;> omega
    simp only [hp, hw]
    refine ⟨trivial, ?_⟩
    intro q
    by_cases hq : q = p
    · subst hq
      simp
    · have hpq : ¬ p = q := fun h => hq h.symm
      simp only [if_neg hq, List.count_append, List.count_cons, List.count_nil, ht q]
      simp [hpq]

theorem UniqueNames_length (calls : List String) (m : String → Option Int) :
    (UniqueNames calls m).length = calls.length := by
  induction calls generalizing m with
  | nil => rfl
  | cons p rest ih => simp [UniqueNames, ih]

theorem UniqueNames_getElem (calls done : List String) (m : String → Option Int)
    (ht : Tracks m done) (hlt : ∀ p, (done ++ calls).count p < 2147483648)
    (i : Nat) (p : String) (hi : calls[i]? = some p) :
    (UniqueNames calls m)[i]?
      = some (p ++ "_" ++ to_string (((done ++ calls.take (i + 1)).count p : Nat) : Int)) := by
  induction calls generalizing done m i with
  | nil => simp at hi
  | cons q rest ih =>
    have hq : done.count q + 1 < 2147483648 := by
      have := hlt q
      simp only [List.count_append, List.count_cons_self] at this
      omega
    obtain ⟨hname, htr⟩ := UniqueName_step m done q ht hq
    cases i with
    | zero =>
      simp only [List.getElem?_cons_zero, Option.some.injEq] at hi
      subst hi
      simp only [UniqueNames, List.getElem?_cons_zero, hname, List.take_succ_cons,
        List.take_zero, List.count_append, List.count_cons_self, List.count_nil]
    | succ j =>
      simp only [List.getElem?_cons_succ] at hi
      simp only [UniqueNames, List.getElem?_cons_succ]
      rw [ih (done ++ [q]) _ htr (by intro r; simpa using hlt r) j hi]
      simp

theorem count_take_lt (calls : List String) (i j : Nat) (p : String) (hij : i < j)
    (hj : calls[j]? = some p) :
    (calls.take (i + 1)).count p < (calls.take (j + 1)).count p := by
  have hjlt : j < calls.length := by
    by_contra hge
    rw [List.getElem?_eq_none (by omega)] at hj
    simp at hj
  have hsplit : calls.take (j + 1) = calls.take j ++ [p] := by
    rw [List.take_succ, hj]
    rfl
  rw [hsplit, List.count_append, List.count_singleton_self]
  have hsub : (calls.take (i + 1)).Sublist (calls.take j) :=
    List.take_sublist_take_left calls (by omega)
  have := hsub.count_le p
  omega

/-- C10: in a sequence of calls of `UniqueName` that starts with the empty counter
map, with arbitrary prefixes, in which no prefix is used more than `INT_MAX` times
(no counter overflows), the returned names are pairwise distinct, and the call at
position `i`, with prefix `p`, returns `p`, an underscore, and the decimal number of
the calls with prefix `p` up to and including this one. -/
theorem UniqueName_fresh (calls : List String)
    (hno : ∀ p, calls.count p < 2147483648) :
    (UniqueNames calls (fun _ => none)).Nodup ∧
      ∀ (i : Nat) (p : String), calls[i]? = some p →
        (UniqueNames calls (fun _ => none))[i]?
          = some (p ++ "_" ++ to_string (((calls.take (i + 1)).count p : Nat) : Int)) := by
  have hget : ∀ (i : Nat) (p : String), calls[i]? = some p →
      (UniqueNames calls (fun _ => none))[i]?
        = some (p ++ "_" ++ to_string (((calls.take (i + 1)).count p : Nat) : Int)) := by
    intro i p hi
    have := UniqueNames_getElem calls [] (fun _ => none) (fun q => by simp) (by simpa using hno)
      i p hi
    simpa using this
  refine ⟨?_, hget⟩
  rw [List.nodup_iff_getElem?_ne_getElem?]
  intro i j hij hj heq
  rw [UniqueNames_length] at hj
  have hi : i < calls.length := by omega
  have hgi := hget i calls[i] (List.getElem?_eq_getElem hi)
  have hgj := hget j calls[j] (List.getElem?_eq_getElem hj)
  rw [hgi, hgj] at heq
  obtain ⟨hp, hc⟩ := name_inj _ _ _ _ (Option.some.inj heq)
  have hlt := count_take_lt calls i j calls[i] hij (by rw [hp]; exact List.getElem?_eq_getElem hj)
  rw [← hp] at hc
  omega

/-- Witness of C10: the prefix `a` twice, with the prefix `a_1` in between. -/
theorem UniqueName_fresh_witness :
    UniqueNames ["a", "a_1", "a"] (fun _ => none) = ["a_1", "a_1_1", "a_2"] ∧
    (∀ p, ["a", "a_1", "a"].count p < 2147483648) ∧
    (UniqueNames ["a", "a_1", "a"] (fun _ => none)).Nodup ∧
      ∀ (i : Nat) (p : String), ["a", "a_1", "a"][i]? = some p →
        (UniqueNames ["a", "a_1", "a"] (fun _ => none))[i]?
          = some (p ++ "_" ++ to_string ((((["a", "a_1", "a"] : List String).take (i + 1)).count p
              : Nat) : Int)) :=
  have h : ∀ p, ["a", "a_1", "a"].count p < 2147483648 := fun p =>
    lt_of_le_of_lt (List.count_le_length _ _) (by decide)
  ⟨by simp [UniqueNames, UniqueName, to_string, decimalDigits, wrapInt32]; decide,
    h, UniqueName_fresh ["a", "a_1", "a"] h⟩

/-! ## Execution scope, the required cast pass, the places of `Build` -/

section ScopeLemmas

variable {G W P Prog : Type}

/-- On an `Optimizer` whose graph exists, every operation that completes keeps the
frame: a `Run` does not complete there. -/
theorem stepOp_frame_of_graph (env : Env G W P Prog) (lw : Bool) (op : Op G Prog)
    (o o1 : Optimizer G W Prog) (hg : o.graph_.isSome = true)
    (h : stepOp env lw op o = .ok () o1) : o.Frame o1 := by
  cases hop : op.isRun with
  | false => exact (stepOp_frame env lw op o o1 h).1 hop
  | true =>
    cases op with
    | Run program vp factor passes =>
      simp only [stepOp] at h
      rw [Run_of_graph env lw o hg] at h
      simp at h
    | _ => simp [Op.isRun] at hop

theorem runOps_frame_of_graph (env : Env G W P Prog) (lw : Bool) (ops : List (Op G Prog))
    (o o1 : Optimizer G W Prog) (hg : o.graph_.isSome = true)
    (h : runOps env lw ops o = .ok () o1) : o.Frame o1 := by
  induction ops generalizing o with
  | nil =>
    simp only [runOps, Outcome.ok.injEq, true_and] at h
    subst h
    exact Optimizer.Frame.refl o
  | cons op rest ih =>
    simp only [runOps] at h
    split at h
    · rename_i v o2 hs
      have f := stepOp_frame_of_graph env lw op o o2 hg hs
      exact f.trans (ih o2 (f.1.trans hg) h)
    · simp at h

/-- What `GenRuntimeProgram` did when it returns a program: the two offload passes
were run, in this order, then `generate_program_pass` was applied to the state they
left, the program was generated and bound to `exec_scope_`. -/
theorem GenRuntimeProgram_ok (env : Env G W P Prog) (o o3 : Optimizer G W Prog)
    (rp : RuntimeProgram) (h : GenRuntimeProgram env o = .ok rp o3) :
    ∃ oa ob pass oc rp0 w scope,
      RunPasses env ["generate_npu_program_pass"] o = .ok () oa ∧
      RunPasses env ["generate_xpu_program_pass"] oa = .ok () ob ∧
      env.LookUp "generate_program_pass" = some pass ∧
      applyPass env pass ob = .ok () oc ∧
      env.GenProgram pass oc.world = .ok (rp0, w) ∧
      o.exec_scope_ = some scope ∧
      rp = { rp0 with exec_scope := some scope } ∧
      o3 = { oc with world := w } := by
  unfold GenRuntimeProgram at h
  split at h
  · simp at h
  rename_i v ob hR
  split at h
  · simp at h
  rename_i pass hL
  split at h
  · simp at h
  rename_i v2 oc hA
  split at h
  · simp at h
  rename_i rp0 w hG
  simp only at h
  split at h
  · simp at h
  rename_i scope hs
  simp only [Outcome.ok.injEq] at h
  obtain ⟨rfl, rfl⟩ := h
  have happ := RunPasses_append env ["generate_npu_program_pass"] ["generate_xpu_program_pass"] o
  simp only [List.singleton_append] at happ
  rw [hR] at happ
  cases hn : RunPasses env ["generate_npu_program_pass"] o with
  | fatal e oa => simp [hn] at happ
  | ok v oa =>
    simp only [hn] at happ
    have f := (RunPasses_frame env _ o ob hR).trans (applyPass_frame env pass ob oc hA)
    refine ⟨oa, ob, pass, oc, rp0, w, scope, rfl, happ.symm, hL, hA, hG, ?_, rfl, rfl⟩
    rw [← f.2.2.1]
    exact hs


/-- When the `Predictor` holds the execution scope of its `Optimizer`, the equality
that `Predictor::GenRuntimeProgram` asserts holds for every program the `Optimizer`
returns, and the call completes. -/
theorem Predictor_GenRuntimeProgram_of_scope (env : Env G W P Prog) (p : Predictor G W Prog)
    (hp : p.exec_scope_ = p.optimizer_.exec_scope_) (rp : RuntimeProgram)
    (o3 : Optimizer G W Prog) (h : GenRuntimeProgram env p.optimizer_ = .ok rp o3) :
    p.exec_scope_ = rp.exec_scope ∧
      Predictor.GenRuntimeProgram env p =
        .ok () { p with optimizer_ := o3, program_ := some rp, program_generated_ := true } := by
  obtain ⟨oa, ob, pass, oc, rp0, w, scope, -, -, -, -, -, hs, hrp, -⟩ :=
    GenRuntimeProgram_ok env p.optimizer_ o3 rp h
  have heq : p.exec_scope_ = rp.exec_scope := by
    rw [hp, hs, hrp]
  refine ⟨heq, ?_⟩
  unfold Predictor.GenRuntimeProgram
  simp only [h, heq, if_true]

/-- A `Predictor::GenRuntimeProgram` that completes leaves the execution scope of the
`Predictor` alone and keeps the frame of its `Optimizer`. -/
theorem Predictor_GenRuntimeProgram_frame (env : Env G W P Prog) (p p1 : Predictor G W Prog)
    (h : Predictor.GenRuntimeProgram env p = .ok () p1) :
    p1.exec_scope_ = p.exec_scope_ ∧ p.optimizer_.Frame p1.optimizer_ := by
  unfold Predictor.GenRuntimeProgram at h
  split at h
  · simp at h
  rename_i rp o1 hG
  simp only at h
  split at h
  · simp only [Outcome.ok.injEq, true_and] at h
    subst h
    exact ⟨rfl, GenRuntimeProgram_frame env p.optimizer_ o1 rp hG⟩
  · simp at h

theorem walkedOps_frame (env : Env G W P Prog) (npu : Bool) (p p1 : Predictor G W Prog)
    (ops : List OpDesc) (h : Predictor.walkedOps env npu p = .ok ops p1) :
    p1.exec_scope_ = p.exec_scope_ ∧ p.optimizer_.Frame p1.optimizer_ := by
  unfold Predictor.walkedOps at h
  cases npu with
  | true =>
    simp only [if_true] at h
    split at h
    · simp at h
    · simp only [Outcome.ok.injEq] at h
      obtain ⟨-, rfl⟩ := h
      exact ⟨rfl, Optimizer.Frame.refl _⟩
  | false =>
    simp only [Bool.false_eq_true, if_false] at h
    split at h
    · simp at h
    rename_i v p2 hstep
    have hfr : p2.exec_scope_ = p.exec_scope_ ∧ p.optimizer_.Frame p2.optimizer_ := by
      split at hstep
      · exact Predictor_GenRuntimeProgram_frame env p p2 hstep
      · simp only [Outcome.ok.injEq, true_and] at hstep
        subst hstep
        exact ⟨rfl, Optimizer.Frame.refl _⟩
    split at h
    · simp at h
    · simp only [Outcome.ok.injEq] at h
      obtain ⟨-, rfl⟩ := h
      exact hfr

theorem nameFeedFetch_frame (ops : List OpDesc) (p p1 : Predictor G W Prog)
    (h : Predictor.nameFeedFetch ops p = .ok () p1) :
    p1.exec_scope_ = p.exec_scope_ ∧ p1.optimizer_ = p.optimizer_ := by
  unfold Predictor.nameFeedFetch at h
  simp only at h
  split at h
  · simp at h
  split at h
  · simp at h
  simp only [Outcome.ok.injEq, true_and] at h
  subst h
  exact ⟨rfl, rfl⟩

theorem PrepareFeedFetch_frame (env : Env G W P Prog) (npu : Bool) (p p1 : Predictor G W Prog)
    (h : Predictor.PrepareFeedFetch env npu p = .ok () p1) :
    p1.exec_scope_ = p.exec_scope_ ∧ p.optimizer_.Frame p1.optimizer_ := by
  unfold Predictor.PrepareFeedFetch at h
  split at h
  · simp at h
  rename_i ops p2 hw
  have f1 := walkedOps_frame env npu p p2 ops hw
  have f2 := nameFeedFetch_frame ops p2 p1 h
  refine ⟨f2.1.trans f1.1, ?_⟩
  rw [f2.2]
  exact f1.2

/-- `Predictor::Build` calls the constructor of `Program` and `Optimizer::Run` with the
caller's valid places followed by the two host places, and then `PrepareFeedFetch`. -/
theorem Build_eq (env : Env G W P Prog) (lw npu : Bool) (p : Predictor G W Prog)
    (desc : ProgramDesc) (vp : List Place) (passes : List String) (program : Prog) (w : W)
    (hN : env.NewProgram desc p.scope_
      (vp ++ [⟨.kHost, .kAny, .kAny⟩, ⟨.kHost, .kFloat, .kNCHW⟩]) p.optimizer_.world
        = .ok (program, w)) :
    Predictor.Build env lw npu p desc vp passes =
      match Run env lw { p.optimizer_ with world := w } program
          (vp ++ [⟨.kHost, .kAny, .kAny⟩, ⟨.kHost, .kFloat, .kNCHW⟩])
          ⟨true, true, true⟩ passes with
      | .fatal e o1 => .fatal e { p with program_desc_ := desc, optimizer_ := o1 }
      | .ok _ o1 =>
        Predictor.PrepareFeedFetch env npu
          { p with program_desc_ := desc, optimizer_ := o1, exec_scope_ := o1.exec_scope_ } := by
  unfold Predictor.Build
  simp only [List.append_assoc, List.singleton_append, hN]
  rfl

theorem Build_ok (env : Env G W P Prog) (lw npu : Bool) (p p1 : Predictor G W Prog)
    (desc : ProgramDesc) (vp : List Place) (passes : List String)
    (h : Predictor.Build env lw npu p desc vp passes = .ok () p1) :
    p1.exec_scope_ = p1.optimizer_.exec_scope_ ∧
      p1.optimizer_.valid_places_ = vp ++ [⟨.kHost, .kAny, .kAny⟩, ⟨.kHost, .kFloat, .kNCHW⟩] := by
  cases hN : env.NewProgram desc p.scope_
      (vp ++ [⟨.kHost, .kAny, .kAny⟩, ⟨.kHost, .kFloat, .kNCHW⟩]) p.optimizer_.world with
  | error e =>
    unfold Predictor.Build at h
    simp [hN] at h
  | ok r =>
    obtain ⟨program, w⟩ := r
    rw [Build_eq env lw npu p desc vp passes program w hN] at h
    split at h
    · simp at h
    rename_i v o1 hR
    have hf := PrepareFeedFetch_frame env npu _ p1 h
    have hr := Run_ok env lw _ o1 program _ _ passes hR
    refine ⟨?_, ?_⟩
    · rw [hf.1, hf.2.2.2.1]
    · rw [hf.2.2.1]
      exact hr.2.2.2.1

theorem runPredictorOps_scope (env : Env G W P Prog) (lw npu : Bool) (ops : List PredictorOp)
    (p p1 : Predictor G W Prog) (hp : p.exec_scope_ = p.optimizer_.exec_scope_)
    (h : runPredictorOps env lw npu ops p = .ok () p1) :
    p1.exec_scope_ = p1.optimizer_.exec_scope_ := by
  induction ops generalizing p with
  | nil =>
    simp only [runPredictorOps, Outcome.ok.injEq, true_and] at h
    subst h
    exact hp
  | cons op rest ih =>
    simp only [runPredictorOps] at h
    split at h
    · rename_i v p2 hs
      apply ih p2 _ h
      cases op with
      | Build desc vp passes => exact (Build_ok env lw npu p p2 desc vp passes hs).1
      | GenRuntimeProgram =>
        have f := Predictor_GenRuntimeProgram_frame env p p2 hs
        rw [f.1, f.2.2.2.1, hp]
      | PrepareFeedFetch =>
        have f := PrepareFeedFetch_frame env npu p p2 hs
        rw [f.1, f.2.2.2.1, hp]
    · simp at h


/-- Without `type_target_cast_pass` in the registry `Run` stops, and it stops before
the pass loop: the log is the one of the call. -/
theorem Run_without_cast_pass (env : Env G W P Prog) (lw : Bool) (o : Optimizer G W Prog)
    (program : Prog) (vp : List Place) (factor : KernelPickFactor) (passes : List String)
    (hL : env.LookUp "type_target_cast_pass" = none) :
    ∃ e st, Run env lw o program vp factor passes = .fatal e st ∧ st.log = o.log := by
  unfold Run
  simp only
  split
  · exact ⟨_, _, rfl, rfl⟩
  split
  · exact ⟨_, _, rfl, rfl⟩
  split
  · exact ⟨_, _, rfl, rfl⟩
  split
  · exact ⟨_, _, rfl, rfl⟩
  simp only [InitTargetTypeTransformPass, hL]
  exact ⟨_, _, rfl, rfl⟩

/-- With `type_target_cast_pass` registered, a `Run` that gets past its checks, the
graph build and the tactic starts the pass loop in a state in which the cast pass has
been given the valid places of the call. -/
theorem Run_with_cast_pass (env : Env G W P Prog) (lw : Bool) (o : Optimizer G W Prog)
    (program : Prog) (vp : List Place) (factor : KernelPickFactor) (passes : List String)
    (pass : P) (g : G) (w w1 : W)
    (hL : env.LookUp "type_target_cast_pass" = some pass) (hvp : vp ≠ [])
    (hg : o.graph_ = none)
    (hB : env.Build env.NewSSAGraph program vp o.world = .ok (g, w))
    (hS : env.SpecifyKernelPickTactic factor w = .ok w1) :
    Run env lw o program vp factor passes =
      match RunPasses env (if passes = [] then passes_local lw else passes)
          { graph_ := some (env.SetValidPlaces g vp), valid_places_ := vp,
            exec_scope_ := o.exec_scope_, program_ := some program,
            world := env.PassSetValidPlaces pass vp w1, log := o.log } with
      | .ok _ o2 => .ok () { o2 with exec_scope_ := env.exec_scope program }
      | .fatal e o2 => .fatal e o2 := by
  have hvp2 : vp.isEmpty = false := by
    cases vp with
    | nil => exact absurd rfl hvp
    | cons a t => rfl
  unfold Run
  simp only [hvp2, hg, hB, hS, InitTargetTypeTransformPass, hL, Option.isSome_none,
    Bool.false_eq_true, if_false]
  cases passes <;> simp <;> generalize RunPasses env _ _ = r <;> cases r <;> rfl

/-- C11: (1) when `Run` has completed, `exec_scope()` is the execution scope of the
program passed to `Run`; it still is after any further operations that complete, and
every runtime program that `GenRuntimeProgram` then returns is bound to that scope;
such a call ran `generate_npu_program_pass`, then `generate_xpu_program_pass`, and
applied `generate_program_pass` to the state they left. (2) Inside
`Predictor::Build`, once `Run` has completed, `PrepareFeedFetch` is entered with the
`Predictor` holding the execution scope of its `Optimizer`. (3) That equality still
holds after a completed `Build` and any further `Build`, `GenRuntimeProgram` and
`PrepareFeedFetch` that complete. (4) Under that equality, whenever the `Optimizer`
returns a runtime program to `Predictor::GenRuntimeProgram`, the asserted equality
`exec_scope_ == program_->exec_scope()` holds and the call completes. -/
theorem exec_scope_bound_after_Run (env : Env G W P Prog) (lw npu : Bool) :
    (∀ (o o1 : Optimizer G W Prog) (program : Prog) (vp : List Place)
        (factor : KernelPickFactor) (passes : List String),
        Run env lw o program vp factor passes = .ok () o1 →
        exec_scope o1 = env.exec_scope program ∧
        ∀ (ops : List (Op G Prog)) (o2 : Optimizer G W Prog),
          runOps env lw ops o1 = .ok () o2 →
          exec_scope o2 = env.exec_scope program ∧
          ∀ (rp : RuntimeProgram) (o3 : Optimizer G W Prog),
            GenRuntimeProgram env o2 = .ok rp o3 →
            rp.exec_scope = env.exec_scope program ∧
            exec_scope o3 = env.exec_scope program ∧
            ∃ oa ob pass oc rp0 w,
              RunPasses env ["generate_npu_program_pass"] o2 = .ok () oa ∧
              RunPasses env ["generate_xpu_program_pass"] oa = .ok () ob ∧
              env.LookUp "generate_program_pass" = some pass ∧
              applyPass env pass ob = .ok () oc ∧
              env.GenProgram pass oc.world = .ok (rp0, w) ∧
              rp = { rp0 with exec_scope := env.exec_scope program } ∧
              o3 = { oc with world := w }) ∧
    (∀ (p : Predictor G W Prog) (desc : ProgramDesc) (vp : List Place) (passes : List String)
        (program : Prog) (w : W) (o1 : Optimizer G W Prog),
        env.NewProgram desc p.scope_
            (vp ++ [⟨.kHost, .kAny, .kAny⟩, ⟨.kHost, .kFloat, .kNCHW⟩]) p.optimizer_.world
          = .ok (program, w) →
        Run env lw { p.optimizer_ with world := w } program
            (vp ++ [⟨.kHost, .kAny, .kAny⟩, ⟨.kHost, .kFloat, .kNCHW⟩]) ⟨true, true, true⟩ passes
          = .ok () o1 →
        ∃ p1 : Predictor G W Prog, p1.exec_scope_ = p1.optimizer_.exec_scope_ ∧
          p1.exec_scope_ = env.exec_scope program ∧
          Predictor.Build env lw npu p desc vp passes = Predictor.PrepareFeedFetch env npu p1) ∧
    (∀ (p p1 p2 : Predictor G W Prog) (desc : ProgramDesc) (vp : List Place)
        (passes : List String) (ops : List PredictorOp),
        Predictor.Build env lw npu p desc vp passes = .ok () p1 →
        runPredictorOps env lw npu ops p1 = .ok () p2 →
        p2.exec_scope_ = p2.optimizer_.exec_scope_) ∧
    (∀ (p : Predictor G W Prog), p.exec_scope_ = p.optimizer_.exec_scope_ →
        ∀ (rp : RuntimeProgram) (o3 : Optimizer G W Prog),
          GenRuntimeProgram env p.optimizer_ = .ok rp o3 →
          p.exec_scope_ = rp.exec_scope ∧
          Predictor.GenRuntimeProgram env p =
            .ok () { p with optimizer_ := o3, program_ := some rp,
                            program_generated_ := true }) := by
  refine ⟨?_, ?_, ?_, ?_⟩
  · intro o o1 program vp factor passes hR
    have hr := Run_ok env lw o o1 program vp factor passes hR
    refine ⟨hr.2.2.2.2.1, ?_⟩
    intro ops o2 hops
    have f := runOps_frame_of_graph env lw ops o1 o2 hr.2.2.1 hops
    have h2 : o2.exec_scope_ = env.exec_scope program := f.2.2.1.trans hr.2.2.2.2.1
    refine ⟨h2, ?_⟩
    intro rp o3 hG
    obtain ⟨oa, ob, pass, oc, rp0, w, scope, hn, hx, hL, hA, hP, hs, hrp, ho3⟩ :=
      GenRuntimeProgram_ok env o2 o3 rp hG
    have hsc : env.exec_scope program = some scope := h2.symm.trans hs
    refine ⟨?_, ?_, oa, ob, pass, oc, rp0, w, hn, hx, hL, hA, hP, ?_, ho3⟩
    · rw [hrp, hsc]
    · exact (GenRuntimeProgram_frame env o2 o3 rp hG).2.2.1.trans h2
    · rw [hrp, hsc]
  · intro p desc vp passes program w o1 hN hR
    refine ⟨{ p with program_desc_ := desc, optimizer_ := o1, exec_scope_ := o1.exec_scope_ },
      rfl, (Run_ok env lw _ o1 program _ _ passes hR).2.2.2.2.1, ?_⟩
    rw [Build_eq env lw npu p desc vp passes program w hN, hR]
  · intro p p1 p2 desc vp passes ops hB hops
    exact runPredictorOps_scope env lw npu ops p1 p2 (Build_ok env lw npu p p1 desc vp passes hB).1
      hops
  · intro p hp rp o3 hG
    exact Predictor_GenRuntimeProgram_of_scope env p hp rp o3 hG

/-- Witness of C11: the `Run` that leaves `Demo.afterRun`, followed by `exec_scope()`
and a `GenRuntimeProgram`; and the `Build` that leaves `Demo.builtPredictor`, followed
by a `GenRuntimeProgram`. -/
theorem exec_scope_bound_after_Run_witness :
    Run Demo.env false Demo.fresh 7 [Demo.host] Demo.factor ["append_node_pass"]
        = .ok () Demo.afterRun ∧
      exec_scope Demo.afterRun = Demo.env.exec_scope 7 ∧
      GenRuntimeProgram Demo.env Demo.afterRun = .ok (Demo.runtimeProgram 7) Demo.afterGen ∧
      (Demo.runtimeProgram 7).exec_scope = Demo.env.exec_scope 7 ∧
      (∃ p1 : Predictor (List String) Unit Nat, p1.exec_scope_ = p1.optimizer_.exec_scope_ ∧
        p1.exec_scope_ = Demo.env.exec_scope 1 ∧
        Predictor.Build Demo.env false false Demo.freshPredictor ⟨[Demo.feedOps]⟩ []
            ["append_node_pass"]
          = Predictor.PrepareFeedFetch Demo.env false p1) ∧
      Predictor.Build Demo.env false false Demo.freshPredictor ⟨[Demo.feedOps]⟩ []
          ["append_node_pass"] = .ok () Demo.builtPredictor ∧
      Demo.builtPredictor.exec_scope_ = Demo.builtPredictor.optimizer_.exec_scope_ ∧
      Demo.builtPredictor.exec_scope_ = (Demo.runtimeProgram 1).exec_scope ∧
      Predictor.GenRuntimeProgram Demo.env Demo.builtPredictor =
        .ok () { Demo.builtPredictor with
                 optimizer_ := Demo.builtOptimizerGen2,
                 program_ := some (Demo.runtimeProgram 1),
                 program_generated_ := true } :=
  have hA := (exec_scope_bound_after_Run Demo.env false false).1 Demo.fresh Demo.afterRun 7
    [Demo.host] Demo.factor ["append_node_pass"] rfl
  have hG := (hA.2 [.exec_scope] Demo.afterRun rfl).2 (Demo.runtimeProgram 7) Demo.afterGen rfl
  have hB1 := (exec_scope_bound_after_Run Demo.env false false).2.1 Demo.freshPredictor
    ⟨[Demo.feedOps]⟩ [] ["append_node_pass"] 1 () Demo.builtOptimizer rfl rfl
  have hB2 := (exec_scope_bound_after_Run Demo.env false false).2.2.1 Demo.freshPredictor
    Demo.builtPredictor Demo.builtPredictor ⟨[Demo.feedOps]⟩ [] ["append_node_pass"] [] rfl rfl
  have hB3 := (exec_scope_bound_after_Run Demo.env false false).2.2.2 Demo.builtPredictor hB2
    (Demo.runtimeProgram 1) Demo.builtOptimizerGen2 rfl
  ⟨rfl, hA.1, rfl, hG.1, hB1, rfl, hB2, hB3.1, hB3.2⟩

/-- C12: if `type_target_cast_pass` is not in the registry, `Run` stops with a fatal
for every `Optimizer`, program, valid places, tactic and pass list, and it stops before
the pass loop (nothing was logged). If it is registered, a `Run` with a non-empty
valid-places list that gets past its checks, the graph build and the tactic enters the
pass loop in a state in which the cast pass has received `SetValidPlaces` with the
valid-places list of the call, and nothing has been logged yet: no pass was run
before. -/
theorem required_cast_pass (env : Env G W P Prog) (lw : Bool) (o : Optimizer G W Prog)
    (program : Prog) (vp : List Place) (factor : KernelPickFactor) (passes : List String) :
    (env.LookUp "type_target_cast_pass" = none →
      ∃ e st, Run env lw o program vp factor passes = .fatal e st ∧ st.log = o.log) ∧
    (∀ (pass : P) (g : G) (w w1 : W),
      env.LookUp "type_target_cast_pass" = some pass → vp ≠ [] → o.graph_ = none →
      env.Build env.NewSSAGraph program vp o.world = .ok (g, w) →
      env.SpecifyKernelPickTactic factor w = .ok w1 →
      Run env lw o program vp factor passes =
        match RunPasses env (if passes = [] then passes_local lw else passes)
            { graph_ := some (env.SetValidPlaces g vp), valid_places_ := vp,
              exec_scope_ := o.exec_scope_, program_ := some program,
              world := env.PassSetValidPlaces pass vp w1, log := o.log } with
        | .ok _ o2 => .ok () { o2 with exec_scope_ := env.exec_scope program }
        | .fatal e o2 => .fatal e o2) :=
  ⟨Run_without_cast_pass env lw o program vp factor passes,
    fun pass g w w1 hL hvp hg hB hS =>
      Run_with_cast_pass env lw o program vp factor passes pass g w w1 hL hvp hg hB hS⟩

/-- Witness of C12: without the cast pass in the registry a `Run` stops before the pass
loop; with it, the pass loop starts after the cast pass has received the valid places
of the call. -/
theorem required_cast_pass_witness :
    (∃ e st, Run Demo.envNoCast false Demo.fresh 7 [Demo.host] Demo.factor ["append_node_pass"]
        = .fatal e st ∧ st.log = Demo.fresh.log) ∧
      Run Demo.recEnv false (Optimizer.fresh [] []) 7 [Demo.host] Demo.factor
          ["append_node_pass"] =
        (match RunPasses Demo.recEnv
            (if ["append_node_pass"] = [] then passes_local false else ["append_node_pass"])
            { graph_ := some (Demo.recEnv.SetValidPlaces ["op7"] [Demo.host]),
              valid_places_ := [Demo.host],
              exec_scope_ := (Optimizer.fresh [] [] : Optimizer (List String)
                (List (List Place)) Nat).exec_scope_,
              program_ := some 7,
              world := Demo.recEnv.PassSetValidPlaces 0 [Demo.host] [],
              log := (Optimizer.fresh [] [] : Optimizer (List String)
                (List (List Place)) Nat).log } with
          | .ok _ o2 => .ok () { o2 with exec_scope_ := Demo.recEnv.exec_scope 7 }
          | .fatal e o2 => .fatal e o2) ∧
      (Run Demo.recEnv false (Optimizer.fresh [] []) 7 [Demo.host] Demo.factor
          ["append_node_pass"]).state.world = [[Demo.host]] :=
  ⟨(required_cast_pass Demo.envNoCast false Demo.fresh 7 [Demo.host] Demo.factor
      ["append_node_pass"]).1 rfl,
    (required_cast_pass Demo.recEnv false (Optimizer.fresh [] []) 7 [Demo.host] Demo.factor
      ["append_node_pass"]).2 0 ["op7"] [] [] rfl (by simp) rfl rfl rfl,
    rfl⟩

/-- C13: for every caller-supplied valid-places list `vp`, the list
`vp ++ [(Host, Any, Any), (Host, Float, NCHW)]` is not empty, begins with `vp` and ends
with exactly the two host places; `Predictor::Build` hands this list to the constructor
of `Program` and, when that returns, to `Optimizer::Run`, whose check of an empty list
therefore has a true condition; and after a completed `Build` the valid places of the
`Optimizer` are this list. -/
theorem Build_inner_places (env : Env G W P Prog) (lw npu : Bool) (p : Predictor G W Prog)
    (desc : ProgramDesc) (vp : List Place) (passes : List String) :
    (vp ++ [(⟨.kHost, .kAny, .kAny⟩ : Place), ⟨.kHost, .kFloat, .kNCHW⟩]).isEmpty = false ∧
    (vp ++ [(⟨.kHost, .kAny, .kAny⟩ : Place), ⟨.kHost, .kFloat, .kNCHW⟩]).take vp.length = vp ∧
    (vp ++ [(⟨.kHost, .kAny, .kAny⟩ : Place), ⟨.kHost, .kFloat, .kNCHW⟩]).drop vp.length
      = [⟨.kHost, .kAny, .kAny⟩, ⟨.kHost, .kFloat, .kNCHW⟩] ∧
    (∀ (program : Prog) (w : W),
      env.NewProgram desc p.scope_
          (vp ++ [⟨.kHost, .kAny, .kAny⟩, ⟨.kHost, .kFloat, .kNCHW⟩]) p.optimizer_.world
        = .ok (program, w) →
      Predictor.Build env lw npu p desc vp passes =
        match Run env lw { p.optimizer_ with world := w } program
            (vp ++ [⟨.kHost, .kAny, .kAny⟩, ⟨.kHost, .kFloat, .kNCHW⟩])
            ⟨true, true, true⟩ passes with
        | .fatal e o1 => .fatal e { p with program_desc_ := desc, optimizer_ := o1 }
        | .ok _ o1 =>
          Predictor.PrepareFeedFetch env npu
            { p with program_desc_ := desc, optimizer_ := o1,
                     exec_scope_ := o1.exec_scope_ }) ∧
    (∀ (e : Fatal),
      env.NewProgram desc p.scope_
          (vp ++ [⟨.kHost, .kAny, .kAny⟩, ⟨.kHost, .kFloat, .kNCHW⟩]) p.optimizer_.world
        = .error e →
      Predictor.Build env lw npu p desc vp passes = .fatal e { p with program_desc_ := desc }) ∧
    (∀ p1 : Predictor G W Prog, Predictor.Build env lw npu p desc vp passes = .ok () p1 →
      p1.optimizer_.valid_places_
        = vp ++ [⟨.kHost, .kAny, .kAny⟩, ⟨.kHost, .kFloat, .kNCHW⟩]) := by
  refine ⟨?_, ?_, ?_, ?_, ?_, ?_⟩
  · cases vp <;> rfl
  · simp
  · simp
  · intro program w hN
    exact Build_eq env lw npu p desc vp passes program w hN
  · intro e hN
    unfold Predictor.Build
    simp only [List.append_assoc, List.singleton_append, hN]
  · intro p1 h
    exact (Build_ok env lw npu p p1 desc vp passes h).2

/-- Witness of C13: a `Build` with an empty caller-supplied list hands `Run` the two
host places and completes. -/
theorem Build_inner_places_witness :
    Predictor.Build Demo.env false false Demo.freshPredictor ⟨[Demo.feedOps]⟩ []
        ["append_node_pass"] =
      (match Run Demo.env false { Demo.freshPredictor.optimizer_ with world := () } 1
          ([] ++ [⟨.kHost, .kAny, .kAny⟩, ⟨.kHost, .kFloat, .kNCHW⟩]) ⟨true, true, true⟩
          ["append_node_pass"] with
        | .fatal e o1 =>
          .fatal e { Demo.freshPredictor with program_desc_ := ⟨[Demo.feedOps]⟩,
                                               optimizer_ := o1 }
        | .ok _ o1 =>
          Predictor.PrepareFeedFetch Demo.env false
            { Demo.freshPredictor with program_desc_ := ⟨[Demo.feedOps]⟩, optimizer_ := o1,
                                       exec_scope_ := o1.exec_scope_ }) ∧
      Predictor.Build Demo.env false false Demo.freshPredictor ⟨[Demo.feedOps]⟩ []
        ["append_node_pass"] = .ok () Demo.builtPredictor ∧
      Demo.builtPredictor.optimizer_.valid_places_
        = [] ++ [⟨.kHost, .kAny, .kAny⟩, ⟨.kHost, .kFloat, .kNCHW⟩] :=
  ⟨(Build_inner_places Demo.env false false Demo.freshPredictor ⟨[Demo.feedOps]⟩ []
      ["append_node_pass"]).2.2.2.1 1 () rfl,
    rfl,
    (Build_inner_places Demo.env false false Demo.freshPredictor ⟨[Demo.feedOps]⟩ []
      ["append_node_pass"]).2.2.2.2.2 Demo.builtPredictor rfl⟩

end ScopeLemmas

/-! ## The info files of `SaveOpKernelInfo` -/

/-- C14 (the code departs from the claim): with the model directory `m`, a program of
one instruction, and a kernels-list file that cannot be opened while the other three
files can, `SaveOpKernelInfo` does not stop at `failed to create info file`: it writes
and closes the two operator files, logs, and then calls `fputs` on the null handle
`kpf`. When one of the three other files cannot be opened, it does stop at
`failed to create info file` before any write. -/
theorem SaveOpKernelInfo_kernels_list_unchecked :
    (Demo.saveEnv ["m/kernels_list"]).fopen_succeeds "m/kernels_list" = false ∧
    SaveOpKernelInfo (Demo.saveEnv ["m/kernels_list"]) (some Demo.convProgram) "m" Demo.noFiles
      = .fatal (.nullDeref "kpf")
          ⟨[("m/kernels_source_list", ""), ("m/ops_source_list", "conv_op.cc\n"),
            ("m/ops_list", "conv2d\n")],
           ["operators information of tailored model is stored into: m/ops_list"]⟩ ∧
    (∀ st, SaveOpKernelInfo (Demo.saveEnv ["m/kernels_list"]) (some Demo.convProgram) "m"
        Demo.noFiles ≠ .fatal (.logFatal "failed to create info file into: m") st) ∧
    SaveOpKernelInfo (Demo.saveEnv ["m/ops_list"]) (some Demo.convProgram) "m" Demo.noFiles
      = .fatal (.logFatal "failed to create info file into: m")
          ⟨[("m/kernels_source_list", ""), ("m/kernels_list", ""), ("m/ops_source_list", "")],
           []⟩ ∧
    SaveOpKernelInfo (Demo.saveEnv ["m/ops_source_list"]) (some Demo.convProgram) "m"
        Demo.noFiles
      = .fatal (.logFatal "failed to create info file into: m")
          ⟨[("m/kernels_source_list", ""), ("m/kernels_list", ""), ("m/ops_list", "")], []⟩ ∧
    SaveOpKernelInfo (Demo.saveEnv ["m/kernels_source_list"]) (some Demo.convProgram) "m"
        Demo.noFiles
      = .fatal (.logFatal "failed to create info file into: m")
          ⟨[("m/kernels_list", ""), ("m/ops_source_list", ""), ("m/ops_list", "")], []⟩ := by
  refine ⟨rfl, rfl, ?_, rfl, rfl, rfl⟩
  intro st h
  have h2 : SaveOpKernelInfo (Demo.saveEnv ["m/kernels_list"]) (some Demo.convProgram) "m"
      Demo.noFiles
      = .fatal (.nullDeref "kpf")
          ⟨[("m/kernels_source_list", ""), ("m/ops_source_list", "conv_op.cc\n"),
            ("m/ops_list", "conv2d\n")],
           ["operators information of tailored model is stored into: m/ops_list"]⟩ := rfl
  rw [h2] at h
  simp at h

end paddle.lite
